import Mathlib

/-!
Verification of the pathforge backend: a single-endpoint service that
validates a free-text career narrative, forwards a prompt to a generative
model, and normalizes the model's textual reply into a fixed JSON schema.

The embedding models JavaScript values produced by JSON parsing (plus the
distinguished `undefined` produced by property access), the string-level
sanitation and regex extraction of the reply, the per-variant response
normalizers, and the route handlers.  Raw texts are embedded as `List Char`;
JavaScript numbers are embedded as `Rat` (only finite JSON numbers are
relevant: JSON has no NaN/Infinity literals).
-/

/-- JavaScript values as they occur in this codebase: results of `JSON.parse`
plus `undefined` as produced by property access on objects lacking the key. -/
inductive JVal where
  | undef : JVal
  | jnull : JVal
  | bool (b : Bool) : JVal
  | num (q : Rat) : JVal
  | str (s : String) : JVal
  | arr (xs : List JVal) : JVal
  | obj (fs : List (String × JVal)) : JVal

/-- JavaScript truthiness, restricted to the values representable here. -/
def truthy : JVal → Bool
  | JVal.undef => false
  | JVal.jnull => false
  | JVal.bool b => b
  | JVal.num q => decide (q ≠ 0)
  | JVal.str s => decide (s ≠ "")
  | JVal.arr _ => true
  | JVal.obj _ => true

/-- `typeof v === 'string'`. -/
def isStringV : JVal → Bool
  | JVal.str _ => true
  | _ => false

/-- `typeof v === 'number'`. -/
def isNumV : JVal → Bool
  | JVal.num _ => true
  | _ => false

/-- `Array.isArray(v)`. -/
def isArrV : JVal → Bool
  | JVal.arr _ => true
  | _ => false

/-- Strict equality of a value against a string literal (`v === "lit"`). -/
def isStrEq (v : JVal) (lit : String) : Bool :=
  match v with
  | JVal.str s => s = lit
  | _ => false

/-- Whitespace as recognized by `String.prototype.trim` (the characters that
occur in practice: space, tab, newline, carriage return, vertical tab,
form feed). -/
def isWs (c : Char) : Bool :=
  c = ' ' || c = '\t' || c = '\n' || c = '\r' || c = Char.ofNat 11 || c = Char.ofNat 12

/-- Drop the longest suffix whose characters satisfy `p`. -/
def dropWhileRight (p : Char → Bool) (l : List Char) : List Char :=
  (l.reverse.dropWhile p).reverse

/-- `s.trim()` on the character-list embedding. -/
def trimChars (l : List Char) : List Char :=
  dropWhileRight isWs (l.dropWhile isWs)

/-- Result record of the input validator (`{valid, error}`). -/
structure ValidationResult where
  valid : Bool
  error : Option String
  deriving DecidableEq, Repr

/-- `validateNarrative` from `lib/validation.js`: falsiness check, string
check, then trimmed-length bounds 10 and 5000 (inclusive). -/
def validateNarrative (narrative : JVal) : ValidationResult :=
  if truthy narrative = false then
    { valid := false, error := some "Narrative is required" }
  else
    match narrative with
    | JVal.str s =>
      let trimmed := trimChars s.data
      if trimmed.length < 10 then
        { valid := false, error := some "Narrative must be at least 10 characters long" }
      else if trimmed.length > 5000 then
        { valid := false, error := some "Narrative must not exceed 5000 characters" }
      else
        { valid := true, error := none }
    | _ => { valid := false, error := some "Narrative must be a string" }

/-- The character `\x7b` (opening curly brace). -/
def lbrace : Char := Char.ofNat 123

/-- The character `\x7d` (closing curly brace). -/
def rbrace : Char := Char.ofNat 125

/-- The backquote character used by markdown code fences. -/
def tick : Char := Char.ofNat 96

/-- Given the characters after a matched opening brace, the greedy
`[\s\S]*` of the extraction regex consumes up to the last closing brace:
this returns the prefix of `l` ending at the last `\x7d` in `l` (inclusive),
or `none` when `l` has no closing brace. -/
def takeToLastBrace : List Char → Option (List Char)
  | [] => none
  | c :: rest =>
    match takeToLastBrace rest with
    | some t => some (c :: t)
    | none => if c = rbrace then some [c] else none

/-- `text.match(/\x7b[\s\S]*\x7d/)`: the regex engine tries each start
position left to right; at an opening brace it matches greedily through the
last closing brace of the remainder, otherwise it advances. -/
def extractJson : List Char → Option (List Char)
  | [] => none
  | c :: rest =>
    if c = lbrace then
      match takeToLastBrace rest with
      | some t => some (c :: t)
      | none => extractJson rest
    else extractJson rest

/-- After `jsonText.startsWith('```')` holds, the effect of
`.replace(/^```(?:json)?\s*/, '')`: drop the three backquotes, then the
literal `json` if present, then any run of whitespace. -/
def fenceStartStrip (t : List Char) : List Char :=
  let t1 := t.drop 3
  let t2 := if t1.take 4 = ['j', 's', 'o', 'n'] then t1.drop 4 else t1
  t2.dropWhile isWs

/-- The effect of `.replace(/\s*```$/, '')`: if the text ends with three
backquotes, drop them together with the run of whitespace before them;
otherwise leave the text unchanged. -/
def fenceEndStrip (t : List Char) : List Char :=
  if t.reverse.take 3 = [tick, tick, tick] then
    dropWhileRight isWs (t.reverse.drop 3).reverse
  else t

/-- The sanitation performed by the defensive `parseResponse`
(`src/unnamed/part_000`, `src/unnamed/part_002`): trim, strip a leading
code fence (and its closing fence), strip leading/trailing backquote runs
(`.replace(/^`+|`+$/g, '')`), and trim again. -/
def stripRich (s : List Char) : List Char :=
  let t0 := trimChars s
  let t1 := if t0.take 3 = [tick, tick, tick]
    then fenceEndStrip (fenceStartStrip t0) else t0
  let t2 := dropWhileRight (fun c => c = tick) (t1.dropWhile (fun c => c = tick))
  trimChars t2

/-- After `jsonText.startsWith('```')` holds, the effect of
`.replace(/^```(?:json)?\n?/, '')` in the strict variant: drop the three
backquotes, then the literal `json` if present, then one newline if present. -/
def fenceStartStripStrict (t : List Char) : List Char :=
  let t1 := t.drop 3
  let t2 := if t1.take 4 = ['j', 's', 'o', 'n'] then t1.drop 4 else t1
  match t2 with
  | c :: rest => if c = '\n' then rest else t2
  | [] => t2

/-- The effect of `.replace(/\n?```$/, '')` in the strict variant: if the
text ends with three backquotes, drop them and one newline directly before
them if present. -/
def fenceEndStripStrict (t : List Char) : List Char :=
  if t.reverse.take 3 = [tick, tick, tick] then
    let t1 := (t.reverse.drop 3).reverse
    match t1.reverse with
    | c :: rest => if c = '\n' then rest.reverse else t1
    | [] => t1
  else t

/-- The sanitation performed by the strict `parseResponse`
(`src/unnamed/part_003`): trim, then strip a leading code fence and its
closing fence (single optional newline variant). -/
def stripStrict (s : List Char) : List Char :=
  let t0 := trimChars s
  if t0.take 3 = [tick, tick, tick]
    then fenceEndStripStrict (fenceStartStripStrict t0) else t0

/-- Total field lookup: first binding of `k` in an object, `undefined` for a
missing key or a non-object. -/
def jget (v : JVal) (k : String) : JVal :=
  match v with
  | JVal.obj fs =>
    match fs.find? (fun f => f.1 = k) with
    | some f => f.2
    | none => JVal.undef
  | _ => JVal.undef

/-- Plain property access `v.k`: a TypeError on `null`/`undefined`
(propagated as an exception), the field or `undefined` on an object, and
`undefined` on any other value. -/
def getFieldE (v : JVal) (k : String) : Except String JVal :=
  match v with
  | JVal.jnull => Except.error "TypeError: cannot read properties of null"
  | JVal.undef => Except.error "TypeError: cannot read properties of undefined"
  | _ => Except.ok (jget v k)

/-- Optional-chaining access `v?.k`: `undefined` when `v` is
`null`/`undefined`, plain access otherwise. -/
def optGet (v : JVal) (k : String) : JVal :=
  match v with
  | JVal.jnull => JVal.undef
  | JVal.undef => JVal.undef
  | _ => jget v k

/-- `k in v`: key-presence test, a TypeError on non-objects (arrays have
none of the keys tested here). -/
def hasKeyE (v : JVal) (k : String) : Except String Bool :=
  match v with
  | JVal.obj fs => Except.ok (fs.any (fun f => f.1 = k))
  | JVal.arr _ => Except.ok false
  | _ => Except.error "TypeError: cannot use in operator"

/-- Boolean key-presence on the embedding (used to state schema checks). -/
def hasKeyB (v : JVal) (k : String) : Bool :=
  match v with
  | JVal.obj fs => fs.any (fun f => f.1 = k)
  | _ => false

/-- `v || dflt`: the JavaScript defaulting idiom. -/
def jsOr (v dflt : JVal) : JVal :=
  if truthy v then v else dflt

/-- The `for (const field of requiredFields) if (!(field in parsed)) throw`
loop shared by every `parseResponse` variant. -/
def checkRequired : List String → JVal → Except String Unit
  | [], _ => Except.ok ()
  | k :: ks, v =>
    match hasKeyE v k with
    | Except.error e => Except.error e
    | Except.ok true => checkRequired ks v
    | Except.ok false => Except.error ("Missing required field: " ++ k)

/-- Allowed skill levels (`['beginner', 'intermediate', 'advanced'].includes`). -/
def isLevel (v : JVal) : Bool :=
  isStrEq v "beginner" || isStrEq v "intermediate" || isStrEq v "advanced"

/-- Allowed resource types (`['youtube', 'documentation', 'course'].includes`). -/
def isResType (v : JVal) : Bool :=
  isStrEq v "youtube" || isStrEq v "documentation" || isStrEq v "course"

/-- Allowed community platforms (`['discord', 'reddit', 'forum'].includes`). -/
def isPlatform (v : JVal) : Bool :=
  isStrEq v "discord" || isStrEq v "reddit" || isStrEq v "forum"

/-- One skill entry of the defensive normalizer:
`{ name: skill.name || 'Unnamed skill', level: allowed.includes(skill.level) ? skill.level : 'beginner' }`.
Plain property access, so a `null` element raises a TypeError. -/
def normSkill (skill : JVal) : Except String JVal := do
  let name ← getFieldE skill "name"
  let level ← getFieldE skill "level"
  Except.ok (JVal.obj
    [("name", jsOr name (JVal.str "Unnamed skill")),
     ("level", if isLevel level then level else JVal.str "beginner")])

/-- `phase.skills.map(skill => ...)`: left-to-right, aborting on the first
thrown exception. -/
def normSkills : List JVal → Except String (List JVal)
  | [] => Except.ok []
  | sk :: rest => do
    let sk' ← normSkill sk
    let rest' ← normSkills rest
    Except.ok (sk' :: rest')

/-- `Array.isArray(phase.skills) ? phase.skills.map(...) : []`. -/
def skillsStep (v : JVal) : Except String (List JVal) :=
  match v with
  | JVal.arr sks => normSkills sks
  | _ => Except.ok []

/-- One phase entry of the defensive normalizer at 1-based position `n`:
re-derived id `phase-n`, defaulted title/description, and list-coerced
skills/tools/projects.  Plain property access, so a `null` element raises a
TypeError at `phase.title`. -/
def normPhase (n : Nat) (phase : JVal) : Except String JVal := do
  let title ← getFieldE phase "title"
  let descr ← getFieldE phase "description"
  let skillsV ← getFieldE phase "skills"
  let skills ← skillsStep skillsV
  let toolsV ← getFieldE phase "tools"
  let projectsV ← getFieldE phase "projects"
  Except.ok (JVal.obj
    [("id", JVal.str ("phase-" ++ toString n)),
     ("title", jsOr title (JVal.str ("Phase " ++ toString n))),
     ("description", jsOr descr (JVal.str "")),
     ("skills", JVal.arr skills),
     ("tools", if isArrV toolsV then toolsV else JVal.arr []),
     ("projects", if isArrV projectsV then projectsV else JVal.arr [])])

/-- `parsed.roadmap.phases.map((phase, index) => ...)` with 1-based display
index `n` for the head element. -/
def normPhases (n : Nat) : List JVal → Except String (List JVal)
  | [] => Except.ok []
  | p :: rest => do
    let p' ← normPhase n p
    let rest' ← normPhases (n + 1) rest
    Except.ok (p' :: rest')

/-- One learning-resource entry of the defensive normalizer. -/
def normLearning (resource : JVal) : Except String JVal := do
  let skill ← getFieldE resource "skill"
  let ty ← getFieldE resource "type"
  let title ← getFieldE resource "title"
  let descr ← getFieldE resource "description"
  Except.ok (JVal.obj
    [("skill", jsOr skill (JVal.str "General")),
     ("type", if isResType ty then ty else JVal.str "documentation"),
     ("title", jsOr title (JVal.str "Learning Resource")),
     ("description", jsOr descr (JVal.str "Resource for skill development"))])

/-- `parsed.roadmap.resources.learning.map(resource => ...)`. -/
def normLearnings : List JVal → Except String (List JVal)
  | [] => Except.ok []
  | r :: rest => do
    let r' ← normLearning r
    let rest' ← normLearnings rest
    Except.ok (r' :: rest')

/-- One community entry of the defensive normalizer. -/
def normCommunity (community : JVal) : Except String JVal := do
  let name ← getFieldE community "name"
  let platform ← getFieldE community "platform"
  let purpose ← getFieldE community "purpose"
  Except.ok (JVal.obj
    [("name", jsOr name (JVal.str "Community")),
     ("platform", if isPlatform platform then platform else JVal.str "forum"),
     ("purpose", jsOr purpose (JVal.str "Community support and networking"))])

/-- `parsed.roadmap.resources.communities.map(community => ...)`. -/
def normCommunities : List JVal → Except String (List JVal)
  | [] => Except.ok []
  | c :: rest => do
    let c' ← normCommunity c
    let rest' ← normCommunities rest
    Except.ok (c' :: rest')

/-- `Array.isArray(parsed.roadmap?.phases) ? parsed.roadmap.phases.map(...) : []`. -/
def phasesStep (v : JVal) : Except String (List JVal) :=
  match v with
  | JVal.arr ps => normPhases 1 ps
  | _ => Except.ok []

/-- `Array.isArray(parsed.roadmap?.resources?.learning) ? ....map(...) : []`. -/
def learningStep (v : JVal) : Except String (List JVal) :=
  match v with
  | JVal.arr rs => normLearnings rs
  | _ => Except.ok []

/-- `Array.isArray(parsed.roadmap?.resources?.communities) ? ....map(...) : []`. -/
def communitiesStep (v : JVal) : Except String (List JVal) :=
  match v with
  | JVal.arr cs => normCommunities cs
  | _ => Except.ok []

/-- Required top-level keys of the rich-schema variants. -/
def richRequired : List String := ["meta", "understanding", "roadmap"]

/-- Required top-level keys of the simple-schema variants. -/
def simpleRequired : List String := ["title", "summary", "phases", "milestones", "skills"]

/-- The post-parse normalization of the defensive `parseResponse`
(`src/unnamed/part_000`, lines 177-314): required-key check, then a fresh
document is built with safe defaults for `meta`, `understanding`,
`roadmap.phases` and `roadmap.resources`. -/
def normalizeRich (parsed : JVal) : Except String JVal := do
  checkRequired richRequired parsed
  let pMeta ← getFieldE parsed "meta"
  let confV := optGet pMeta "confidence"
  let meta := JVal.obj
    [("inferredCareer", jsOr (optGet pMeta "inferredCareer") (JVal.str "Unknown Career Path")),
     ("confidence", match confV with
       | JVal.num q => JVal.num (max 0 (min 100 q))
       | _ => JVal.num 60)]
  let pUnd ← getFieldE parsed "understanding"
  let hpwV := optGet pUnd "hoursPerWeek"
  let understanding := JVal.obj
    [("interests", if isArrV (optGet pUnd "interests") then optGet pUnd "interests" else JVal.arr []),
     ("workStyle", jsOr (optGet pUnd "workStyle") (JVal.str "Not specified")),
     ("longTermGoal", jsOr (optGet pUnd "longTermGoal") (JVal.str "Career growth and development")),
     ("hoursPerWeek", match hpwV with
       | JVal.num q => JVal.num (max 0 q)
       | _ => JVal.num 20)]
  let pRoadmap ← getFieldE parsed "roadmap"
  let phases ← phasesStep (optGet pRoadmap "phases")
  let learning ← learningStep (optGet (optGet pRoadmap "resources") "learning")
  let communities ← communitiesStep (optGet (optGet pRoadmap "resources") "communities")
  Except.ok (JVal.obj
    [("meta", meta),
     ("understanding", understanding),
     ("roadmap", JVal.obj
       [("phases", JVal.arr phases),
        ("resources", JVal.obj
          [("learning", JVal.arr learning),
           ("communities", JVal.arr communities)])])])

/-- Overwrite the first binding of `k` in a field list, appending it when
absent. -/
def setIn : List (String × JVal) → String → JVal → List (String × JVal)
  | [], k, x => [(k, x)]
  | f :: rest, k, x => if f.1 = k then (k, x) :: rest else f :: setIn rest k x

/-- `parsed.k = x` on an object: overwrite the binding of `k`, appending it
when absent (objects reaching this point have unique keys). Assignment on a
non-object is unreachable after the required-key check and is the identity. -/
def setField (v : JVal) (k : String) (x : JVal) : JVal :=
  match v with
  | JVal.obj fs => JVal.obj (setIn fs k x)
  | _ => v

/-- The post-parse normalization of the simple-schema `parseResponse`
(`src/backend/app/api/forge/route.js`, lines 63-79; also
`parseRoadmapResponse` in `src/unnamed/part_005`): required-key check,
then `phases`/`milestones`/`skills`/`resources` are coerced to `[]` when
not arrays, and the parsed object is returned otherwise unchanged. -/
def normalizeSimple (parsed : JVal) : Except String JVal := do
  checkRequired simpleRequired parsed
  let ph ← getFieldE parsed "phases"
  let parsed1 := if isArrV ph then parsed else setField parsed "phases" (JVal.arr [])
  let mi ← getFieldE parsed1 "milestones"
  let parsed2 := if isArrV mi then parsed1 else setField parsed1 "milestones" (JVal.arr [])
  let sk ← getFieldE parsed2 "skills"
  let parsed3 := if isArrV sk then parsed2 else setField parsed2 "skills" (JVal.arr [])
  let re ← getFieldE parsed3 "resources"
  let parsed4 := if isArrV re then parsed3 else setField parsed3 "resources" (JVal.arr [])
  Except.ok parsed4

/-- The post-parse validation of the strict `parseResponse`
(`src/unnamed/part_003`, lines 71-98): required-key check, then structural
checks on `meta`, `understanding` and `roadmap`; the parsed object is
returned unchanged. -/
def normalizeStrict (parsed : JVal) : Except String JVal := do
  checkRequired richRequired parsed
  let pMeta ← getFieldE parsed "meta"
  let ic ← getFieldE pMeta "inferredCareer"
  let conf ← getFieldE pMeta "confidence"
  if !truthy ic || !isNumV conf then
    Except.error "Invalid meta structure"
  else do
  let u ← getFieldE parsed "understanding"
  let interests ← getFieldE u "interests"
  let ws ← getFieldE u "workStyle"
  let ltg ← getFieldE u "longTermGoal"
  let hpw ← getFieldE u "hoursPerWeek"
  if !isArrV interests || !truthy ws || !truthy ltg || !isNumV hpw then
    Except.error "Invalid understanding structure"
  else do
  let r ← getFieldE parsed "roadmap"
  let phv ← getFieldE r "phases"
  if !truthy phv || !isArrV phv then
    Except.error "Invalid roadmap structure"
  else
    Except.ok parsed

/-- Text of the prompt template before the interpolated narrative, for
the defensive rich-schema variant (`src/unnamed/part_000`). -/
def promptPreRich : String :=
  "You are a deterministic career analysis system. Analyze the following narrative and output ONLY valid JSON with no markdown, no explanations, no additional text.\n\nUser Narrative:\n\""

/-- Text of the prompt template after the interpolated narrative, for
the defensive rich-schema variant (`src/unnamed/part_000`). -/
def promptPostRich : String :=
  "\"\n\nOutput must follow this exact JSON schema:\n\n\x7b\n  \"meta\": \x7b\n    \"inferredCareer\": \"string\",\n    \"confidence\": number\n  \x7d,\n  \"understanding\": \x7b\n    \"interests\": [\"string\"],\n    \"workStyle\": \"string\",\n    \"longTermGoal\": \"string\",\n    \"hoursPerWeek\": number\n  \x7d,\n  \"roadmap\": \x7b\n    \"phases\": [\n      \x7b\n        \"id\": \"string\",\n        \"title\": \"string\",\n        \"description\": \"string\",\n        \"skills\": [\n          \x7b \"name\": \"string\", \"level\": \"beginner | intermediate | advanced\" \x7d\n        ],\n        \"tools\": [\"string\"],\n        \"projects\": [\"string\"]\n      \x7d\n    ],\n    \"resources\": \x7b\n      \"learning\": [\n        \x7b\n          \"skill\": \"string\",\n          \"type\": \"youtube | documentation | course\",\n          \"title\": \"string\",\n          \"description\": \"string\"\n        \x7d\n      ],\n      \"communities\": [\n        \x7b\n          \"name\": \"string\",\n          \"platform\": \"discord | reddit | forum\",\n          \"purpose\": \"string\"\n        \x7d\n      ]\n    \x7d\n  \x7d\n\x7d\n\nRules:\n- Output ONLY valid JSON\n- No markdown code blocks\n- No explanations\n- Treat this as a deterministic system\n- Confidence is a number between 0 and 100\n\n/**\n * Career-aware filtering:\n * - Resources must align with inferredCareer\n * - Do not suggest irrelevant tools or skills\n * - Keep roadmap focused, not bloated\n */\n\n/**\n * Improve project suggestions:\n * - Projects should increase in complexity across phases\n * - Projects must align with real-world expectations\n * - Avoid vague project names like \"Build an app\"\n * - Each project should sound resume-worthy\n */\n\n/**\n * In addition to roadmap phases, also generate learning resources.\n *\n * Resource rules:\n * - Prefer YouTube channels, official docs, and free courses\n * - Resources must map clearly to skills in the roadmap\n * - No links required, only titles and descriptions\n * - Avoid generic or vague resources\n * - Resources should help a beginner start immediately\n * - Resources must be relevant to the inferred career\n * - Avoid paid-only platforms unless unavoidable\n * \n * Resource quality rules:\n * - No duplicated resources\n * - No overly generic titles\n * - Prefer well-known creators or official documentation\n * - Descriptions should explain WHY the resource matters\n */"

/-- Text of the prompt template before the interpolated narrative, for
the simple-schema variant (`src/backend/app/api/forge/route.js`). -/
def promptPreSimple : String :=
  "You are a career counselor and strategic planner. Based on the following narrative about a person's career background and aspirations, create a detailed career roadmap.\n\nUser's Narrative:\n\""

/-- Text of the prompt template after the interpolated narrative, for
the simple-schema variant (`src/backend/app/api/forge/route.js`). -/
def promptPostSimple : String :=
  "\"\n\nPlease analyze this narrative and provide a structured JSON response with the following format (respond ONLY with valid JSON, no additional text):\n\n\x7b\n  \"title\": \"A concise title for the career path\",\n  \"summary\": \"2-3 sentence overview of the recommended career direction\",\n  \"phases\": [\n    \x7b\n      \"phase\": 1,\n      \"name\": \"Phase name\",\n      \"duration\": \"estimated timeframe\",\n      \"objectives\": [\"objective 1\", \"objective 2\"],\n      \"actions\": [\"action 1\", \"action 2\"]\n    \x7d\n  ],\n  \"milestones\": [\n    \x7b\n      \"milestone\": \"Specific achievement\",\n      \"timeline\": \"when to achieve it\",\n      \"description\": \"why this matters\"\n    \x7d\n  ],\n  \"skills\": [\n    \x7b\n      \"category\": \"skill category\",\n      \"skills\": [\"skill 1\", \"skill 2\"],\n      \"priority\": \"high/medium/low\"\n    \x7d\n  ],\n  \"resources\": [\n    \x7b\n      \"type\": \"certifications/courses/books/communities\",\n      \"recommendations\": [\"resource 1\", \"resource 2\"]\n    \x7d\n  ]\n\x7d\n\nEnsure the response is valid JSON that can be parsed. Make the roadmap realistic, actionable, and tailored to the narrative provided."

/-- Text of the prompt template before the interpolated narrative, for
the strict rich-schema variant (`src/unnamed/part_003`). -/
def promptPreStrict : String :=
  "You are a deterministic career analysis system. Analyze the following narrative and output ONLY valid JSON with no markdown, no explanations, no additional text.\n\nUser Narrative:\n\""

/-- Text of the prompt template after the interpolated narrative, for
the strict rich-schema variant (`src/unnamed/part_003`). -/
def promptPostStrict : String :=
  "\"\n\nOutput must follow this exact JSON schema:\n\n\x7b\n  \"meta\": \x7b\n    \"inferredCareer\": \"string\",\n    \"confidence\": number\n  \x7d,\n  \"understanding\": \x7b\n    \"interests\": [\"string\"],\n    \"workStyle\": \"string\",\n    \"longTermGoal\": \"string\",\n    \"hoursPerWeek\": number\n  \x7d,\n  \"roadmap\": \x7b\n    \"phases\": [\n      \x7b\n        \"id\": \"string\",\n        \"title\": \"string\",\n        \"description\": \"string\",\n        \"skills\": [\n          \x7b \"name\": \"string\", \"level\": \"beginner | intermediate | advanced\" \x7d\n        ],\n        \"tools\": [\"string\"],\n        \"projects\": [\"string\"]\n      \x7d\n    ]\n  \x7d\n\x7d\n\nRules:\n- Output ONLY valid JSON\n- No markdown code blocks\n- No explanations\n- Treat this as a deterministic system\n- Confidence is a number between 0 and 1"

/-- Coercion of the interpolated value into the template string; validated
narratives are strings, the remaining cases are unreachable through the
route handlers. -/
def toTemplate : JVal → List Char
  | JVal.str s => s.data
  | _ => []

/-- `buildPrompt` of the defensive rich-schema variant
(`src/unnamed/part_000`, lines 52-144). -/
def buildPromptRich (narrative : JVal) : List Char :=
  promptPreRich.data ++ toTemplate narrative ++ promptPostRich.data

/-- `buildPrompt` of the simple-schema variant
(`src/backend/app/api/forge/route.js`, lines 8-51). -/
def buildPromptSimple (narrative : JVal) : List Char :=
  promptPreSimple.data ++ toTemplate narrative ++ promptPostSimple.data

/-- `buildPrompt` of the strict rich-schema variant
(`src/unnamed/part_003`, lines 8-49). -/
def buildPromptStrict (narrative : JVal) : List Char :=
  promptPreStrict.data ++ toTemplate narrative ++ promptPostStrict.data

/-- `parseResponse` of the defensive rich-schema variant
(`src/unnamed/part_000`, lines 154-314): sanitize, extract the brace
substring, parse it as JSON (`JSON.parse` is the runtime's JSON parser,
passed in as `jp`; `none` models a thrown SyntaxError), then normalize. -/
def parseResponseRich (jp : List Char → Option JVal) (raw : List Char) :
    Except String JVal :=
  match extractJson (stripRich raw) with
  | none => Except.error "No JSON found in AI response"
  | some js =>
    match jp js with
    | none => Except.error "SyntaxError: Unexpected token"
    | some parsed => normalizeRich parsed

/-- `parseResponse` of the simple-schema variant
(`src/backend/app/api/forge/route.js`, lines 56-80): extraction on the raw
reply (no sanitation), JSON parse, then the array coercions. -/
def parseResponseSimple (jp : List Char → Option JVal) (raw : List Char) :
    Except String JVal :=
  match extractJson raw with
  | none => Except.error "No JSON found in AI response"
  | some js =>
    match jp js with
    | none => Except.error "SyntaxError: Unexpected token"
    | some parsed => normalizeSimple parsed

/-- `parseResponse` of the strict rich-schema variant
(`src/unnamed/part_003`, lines 54-99): sanitize (single-newline fence
variant), extract, JSON parse, then the structural checks. -/
def parseResponseStrict (jp : List Char → Option JVal) (raw : List Char) :
    Except String JVal :=
  match extractJson (stripStrict raw) with
  | none => Except.error "No JSON found in AI response"
  | some js =>
    match jp js with
    | none => Except.error "SyntaxError: Unexpected token"
    | some parsed => normalizeStrict parsed

/-- Outcome of a route handler: HTTP status and the response envelope. -/
structure HttpResponse where
  status : Nat
  success : Bool
  errMsg : Option String
  errCode : Option String
  data : Option JVal

/-- `POST` of the defensive variant (`src/unnamed/part_000`, lines 354-488).
`body` is the outcome of `await request.json()` (`Except.error` carries the
SyntaxError message); `gemini` is the outcome of `callGemini` per prompt.
Body-parse failures are caught by a dedicated inner handler and mapped to
400; destructuring a non-object body throws into the outer handler (500);
upstream and parse failures map to 500 with fixed messages. -/
def POSTrich (jp : List Char → Option JVal)
    (gemini : List Char → Except String (List Char))
    (body : Except String JVal) : HttpResponse :=
  match body with
  | Except.error _ =>
    { status := 400, success := false, errMsg := some "Invalid JSON in request body",
      errCode := some "INVALID_INPUT", data := none }
  | Except.ok b =>
    match getFieldE b "narrative" with
    | Except.error _ =>
      { status := 500, success := false, errMsg := some "Internal server error",
        errCode := some "FORGE_FAILED", data := none }
    | Except.ok narrative =>
      let validation := validateNarrative narrative
      if validation.valid = false then
        { status := 400, success := false, errMsg := validation.error,
          errCode := some "INVALID_INPUT", data := none }
      else
        match gemini (buildPromptRich narrative) with
        | Except.error _ =>
          { status := 500, success := false,
            errMsg := some "AI service temporarily unavailable",
            errCode := some "AI_ERROR", data := none }
        | Except.ok raw =>
          match parseResponseRich jp raw with
          | Except.error _ =>
            { status := 500, success := false,
              errMsg := some "Failed to process AI response",
              errCode := some "AI_ERROR", data := none }
          | Except.ok roadmap =>
            { status := 200, success := true, errMsg := none,
              errCode := none, data := some roadmap }

/-- `POST` of the simple-schema variant
(`src/backend/app/api/forge/route.js`, lines 100-157): a single try/catch,
so a body that fails to parse as JSON is caught by the generic handler and
returns 500 with the thrown message. -/
def POSTsimple (jp : List Char → Option JVal)
    (gemini : List Char → Except String (List Char))
    (body : Except String JVal) : HttpResponse :=
  match body with
  | Except.error m =>
    { status := 500, success := false, errMsg := some m, errCode := none, data := none }
  | Except.ok b =>
    match getFieldE b "narrative" with
    | Except.error m =>
      { status := 500, success := false, errMsg := some m, errCode := none, data := none }
    | Except.ok narrative =>
      let validation := validateNarrative narrative
      if validation.valid = false then
        { status := 400, success := false, errMsg := validation.error,
          errCode := none, data := none }
      else
        match gemini (buildPromptSimple narrative) with
        | Except.error m =>
          { status := 500, success := false, errMsg := some m, errCode := none, data := none }
        | Except.ok raw =>
          match parseResponseSimple jp raw with
          | Except.error m =>
            { status := 500, success := false, errMsg := some m, errCode := none, data := none }
          | Except.ok roadmap =>
            { status := 200, success := true, errMsg := none, errCode := none,
              data := some roadmap }

/-- `POST` of the strict variant (`src/unnamed/part_003`, lines 119-176):
same single try/catch shape as the simple variant, with the strict
`parseResponse`. -/
def POSTstrict (jp : List Char → Option JVal)
    (gemini : List Char → Except String (List Char))
    (body : Except String JVal) : HttpResponse :=
  match body with
  | Except.error m =>
    { status := 500, success := false, errMsg := some m, errCode := none, data := none }
  | Except.ok b =>
    match getFieldE b "narrative" with
    | Except.error m =>
      { status := 500, success := false, errMsg := some m, errCode := none, data := none }
    | Except.ok narrative =>
      let validation := validateNarrative narrative
      if validation.valid = false then
        { status := 400, success := false, errMsg := validation.error,
          errCode := none, data := none }
      else
        match gemini (buildPromptStrict narrative) with
        | Except.error m =>
          { status := 500, success := false, errMsg := some m, errCode := none, data := none }
        | Except.ok raw =>
          match parseResponseStrict jp raw with
          | Except.error m =>
            { status := 500, success := false, errMsg := some m, errCode := none, data := none }
          | Except.ok roadmap =>
            { status := 200, success := true, errMsg := none, errCode := none,
              data := some roadmap }

/-- The gemini-call-onward tail of the defensive `POST`, as its own
function: used to state that the handler forwards the original narrative to
the prompt builder. -/
def forgeCoreRich (jp : List Char → Option JVal)
    (gemini : List Char → Except String (List Char))
    (narrative : JVal) : HttpResponse :=
  match gemini (buildPromptRich narrative) with
  | Except.error _ =>
    { status := 500, success := false,
      errMsg := some "AI service temporarily unavailable",
      errCode := some "AI_ERROR", data := none }
  | Except.ok raw =>
    match parseResponseRich jp raw with
    | Except.error _ =>
      { status := 500, success := false,
        errMsg := some "Failed to process AI response",
        errCode := some "AI_ERROR", data := none }
    | Except.ok roadmap =>
      { status := 200, success := true, errMsg := none,
        errCode := none, data := some roadmap }

/-- Both brace characters absent from a character list. -/
def braceFree (l : List Char) : Prop := lbrace ∉ l ∧ rbrace ∉ l

/-- `a` sits inside `b` with brace-free text on both sides: the relation
every sanitation step of the normalizers preserves, and the relation a
markdown code fence around a reply establishes. -/
def BFInfix (a b : List Char) : Prop :=
  ∃ u v, b = u ++ a ++ v ∧ braceFree u ∧ braceFree v

/-- Markdown code-fence wrapping of a reply: optional `json` tag and
whitespace runs around the fence markers and the body. -/
def wrapFence (tag : Bool) (ws1 ws2 ws3 ws4 t : List Char) : List Char :=
  ws1 ++ [tick, tick, tick] ++ (if tag then ['j', 's', 'o', 'n'] else []) ++
    ws2 ++ t ++ ws3 ++ [tick, tick, tick] ++ ws4

/-- Per-skill schema check: the level literal is one of the allowed three. -/
def skillOk (v : JVal) : Bool := isLevel (jget v "level")

/-- Per-phase schema check: skills is a list of schema-correct skills and
tools/projects are lists. -/
def phaseOk (v : JVal) : Bool :=
  (match jget v "skills" with
    | JVal.arr l => l.all skillOk
    | _ => false) &&
  isArrV (jget v "tools") && isArrV (jget v "projects")

/-- Per-learning-resource schema check. -/
def learningOk (v : JVal) : Bool := isResType (jget v "type")

/-- Per-community schema check. -/
def communityOk (v : JVal) : Bool := isPlatform (jget v "platform")

/-- Syntactic schema completeness of a normalized document, as enumerated by
the specification: the top-level sections are present, confidence is a
number within 0..100, hoursPerWeek a number at least 0, every list-valued
field is a list, and every constrained literal is from its allowed set. -/
def schemaComplete (d : JVal) : Bool :=
  hasKeyB d "meta" && hasKeyB d "understanding" && hasKeyB d "roadmap" &&
  (match jget (jget d "meta") "confidence" with
    | JVal.num q => decide (0 ≤ q ∧ q ≤ 100)
    | _ => false) &&
  (match jget (jget d "understanding") "hoursPerWeek" with
    | JVal.num q => decide (0 ≤ q)
    | _ => false) &&
  isArrV (jget (jget d "understanding") "interests") &&
  (match jget (jget d "roadmap") "phases" with
    | JVal.arr l => l.all phaseOk
    | _ => false) &&
  (match jget (jget (jget d "roadmap") "resources") "learning" with
    | JVal.arr l => l.all learningOk
    | _ => false) &&
  (match jget (jget (jget d "roadmap") "resources") "communities" with
    | JVal.arr l => l.all communityOk
    | _ => false)

/-- Concrete narrative whose raw length is 5001 but whose trimmed length is
10: ten letters followed by 4991 spaces. -/
def longNarrative : String := String.mk (List.replicate 10 'a' ++ List.replicate 4991 ' ')

/-- Parsed reply missing the required `meta` key (the other two present). -/
def vNoMeta : JVal := JVal.obj [("understanding", JVal.obj []), ("roadmap", JVal.obj [])]

/-- Parsed reply missing the required `title` key of the simple schema. -/
def vNoTitle : JVal := JVal.obj
  [("summary", JVal.str "s"), ("phases", JVal.arr []), ("milestones", JVal.arr []),
   ("skills", JVal.arr [])]

/-- Parsed reply with all required keys present but otherwise empty. -/
def minimalRichParsed : JVal :=
  JVal.obj [("meta", JVal.obj []), ("understanding", JVal.obj []), ("roadmap", JVal.obj [])]

/-- The fully-defaulted document the defensive normalizer produces from
`minimalRichParsed`. -/
def defaultRichDoc : JVal :=
  JVal.obj
    [("meta", JVal.obj
       [("inferredCareer", JVal.str "Unknown Career Path"), ("confidence", JVal.num 60)]),
     ("understanding", JVal.obj
       [("interests", JVal.arr []), ("workStyle", JVal.str "Not specified"),
        ("longTermGoal", JVal.str "Career growth and development"),
        ("hoursPerWeek", JVal.num 20)]),
     ("roadmap", JVal.obj
       [("phases", JVal.arr []),
        ("resources", JVal.obj [("learning", JVal.arr []), ("communities", JVal.arr [])])])]

/-- Parsed reply whose two phases both carry the identifier `x`. -/
def dupIdsParsed : JVal :=
  JVal.obj [("meta", JVal.obj []), ("understanding", JVal.obj []),
    ("roadmap", JVal.obj [("phases", JVal.arr
      [JVal.obj [("id", JVal.str "x")], JVal.obj [("id", JVal.str "x")]])])]

/-- The document the defensive normalizer produces from `dupIdsParsed`:
ids re-derived as `phase-1`, `phase-2`. -/
def dupIdsDoc : JVal :=
  JVal.obj
    [("meta", JVal.obj
       [("inferredCareer", JVal.str "Unknown Career Path"), ("confidence", JVal.num 60)]),
     ("understanding", JVal.obj
       [("interests", JVal.arr []), ("workStyle", JVal.str "Not specified"),
        ("longTermGoal", JVal.str "Career growth and development"),
        ("hoursPerWeek", JVal.num 20)]),
     ("roadmap", JVal.obj
       [("phases", JVal.arr
         [JVal.obj [("id", JVal.str "phase-1"), ("title", JVal.str "Phase 1"),
            ("description", JVal.str ""), ("skills", JVal.arr []),
            ("tools", JVal.arr []), ("projects", JVal.arr [])],
          JVal.obj [("id", JVal.str "phase-2"), ("title", JVal.str "Phase 2"),
            ("description", JVal.str ""), ("skills", JVal.arr []),
            ("tools", JVal.arr []), ("projects", JVal.arr [])]]),
        ("resources", JVal.obj [("learning", JVal.arr []), ("communities", JVal.arr [])])])]

/-- Parsed reply with every required key present whose phases list contains
a `null` element. -/
def nullPhaseParsed : JVal :=
  JVal.obj [("meta", JVal.obj []), ("understanding", JVal.obj []),
    ("roadmap", JVal.obj [("phases", JVal.arr [JVal.jnull])])]

theorem trimChars_nil : trimChars [] = [] := rfl

theorem validateNarrative_str_valid (s : String) :
    (validateNarrative (JVal.str s)).valid =
      (decide (10 ≤ (trimChars s.data).length) && decide ((trimChars s.data).length ≤ 5000)) := by
  unfold validateNarrative
  by_cases hs : s = ""
  · subst hs
    simp [truthy, trimChars, dropWhileRight]
  · simp [truthy, hs]
    split_ifs with h1 h2 <;> simp <;> omega

theorem validateNarrative_error_of_not_valid (v : JVal) :
    (validateNarrative v).valid = false → (validateNarrative v).error.isSome = true := by
  unfold validateNarrative
  cases v with
  | str s =>
    by_cases ht : truthy (JVal.str s) = false
    · simp [ht]
    · simp only [ht, if_neg]
      simp
      split_ifs <;> simp
  | undef => simp [truthy]
  | jnull => simp [truthy]
  | bool b => split_ifs <;> simp
  | num q => split_ifs <;> simp
  | arr xs => split_ifs <;> simp
  | obj fs => split_ifs <;> simp

theorem takeToLastBrace_eq_none (l : List Char) :
    takeToLastBrace l = none ↔ rbrace ∉ l := by
  induction l with
  | nil => simp [takeToLastBrace]
  | cons c rest ih =>
    unfold takeToLastBrace
    cases h : takeToLastBrace rest with
    | some t =>
      simp only [h]
      constructor
      · intro hc; exact absurd hc (by simp)
      · intro hc
        exfalso
        have : rbrace ∈ rest := by
          by_contra hnot
          rw [← ih] at hnot
          rw [hnot] at h
          exact Option.noConfusion h
        exact hc (List.mem_cons_of_mem _ this)
    | none =>
      simp only [h]
      have hrest : rbrace ∉ rest := (ih).mp h
      by_cases hc : c = rbrace
      · simp [hc]
      · simp [hc, hrest, Ne.symm hc]

theorem takeToLastBrace_eq_some (l t : List Char) :
    takeToLastBrace l = some t →
    ∃ b c, l = b ++ rbrace :: c ∧ rbrace ∉ c ∧ t = b ++ [rbrace] := by
  induction l generalizing t with
  | nil => intro h; exact Option.noConfusion h
  | cons x rest ih =>
    intro h
    unfold takeToLastBrace at h
    cases hr : takeToLastBrace rest with
    | some t' =>
      rw [hr] at h
      obtain ⟨b, c, hl, hc, ht⟩ := ih t' hr
      refine ⟨x :: b, c, by rw [hl]; rfl, hc, ?_⟩
      cases h
      rw [ht]
      rfl
    | none =>
      rw [hr] at h
      by_cases hx : x = rbrace
      · rw [if_pos hx] at h
        cases h
        exact ⟨[], rest, by rw [hx]; rfl, (takeToLastBrace_eq_none rest).mp hr, by rw [hx]; rfl⟩
      · rw [if_neg hx] at h
        exact Option.noConfusion h

theorem takeToLastBrace_complete (b c : List Char) (hc : rbrace ∉ c) :
    takeToLastBrace (b ++ rbrace :: c) = some (b ++ [rbrace]) := by
  induction b with
  | nil =>
    simp only [List.nil_append]
    unfold takeToLastBrace
    rw [(takeToLastBrace_eq_none c).mpr hc]
    simp
  | cons x b' ih =>
    simp only [List.cons_append]
    unfold takeToLastBrace
    rw [ih]

theorem extractJson_no_rbrace (l : List Char) (h : rbrace ∉ l) :
    extractJson l = none := by
  induction l with
  | nil => rfl
  | cons c rest ih =>
    have hrest : rbrace ∉ rest := fun hm => h (List.mem_cons_of_mem _ hm)
    unfold extractJson
    by_cases hc : c = lbrace
    · rw [if_pos hc, (takeToLastBrace_eq_none rest).mpr hrest]
      exact ih hrest
    · rw [if_neg hc]
      exact ih hrest

theorem extractJson_cons_some (c : Char) (rest t : List Char) (hc : c = lbrace)
    (h : takeToLastBrace rest = some t) : extractJson (c :: rest) = some (c :: t) := by
  simp only [extractJson, if_pos hc, h]

theorem extractJson_cons_none (c : Char) (rest : List Char)
    (h : takeToLastBrace rest = none) : extractJson (c :: rest) = extractJson rest := by
  by_cases hc : c = lbrace
  · simp only [extractJson, if_pos hc, h]
  · simp only [extractJson, if_neg hc]

theorem extractJson_cons_ne (c : Char) (rest : List Char) (hc : c ≠ lbrace) :
    extractJson (c :: rest) = extractJson rest := by
  simp only [extractJson, if_neg hc]

theorem extractJson_complete (a b c : List Char) (ha : lbrace ∉ a) (hc : rbrace ∉ c) :
    extractJson (a ++ lbrace :: b ++ rbrace :: c) = some (lbrace :: b ++ [rbrace]) := by
  induction a with
  | nil =>
    simp only [List.nil_append, List.cons_append]
    rw [extractJson_cons_some lbrace (b ++ rbrace :: c) (b ++ [rbrace]) rfl
      (takeToLastBrace_complete b c hc)]
  | cons x a' ih =>
    have hx : x ≠ lbrace := fun h => ha (h ▸ List.mem_cons_self x a')
    have ha' : lbrace ∉ a' := fun hm => ha (List.mem_cons_of_mem _ hm)
    simp only [List.cons_append]
    rw [extractJson_cons_ne x _ hx]
    exact ih ha'

theorem extractJson_eq_none (s : List Char) :
    extractJson s = none ↔ ∀ a b c, s ≠ a ++ lbrace :: b ++ rbrace :: c := by
  induction s with
  | nil =>
    simp only [extractJson]
    constructor
    · intro _ a b c h
      exact List.noConfusion (List.append_eq_nil.mp (h.symm)).2
    · intro _
      simp
  | cons x rest ih =>
    constructor
    · intro h a b c heq
      by_cases hx : x = lbrace
      · cases hr : takeToLastBrace rest with
        | some t => rw [extractJson_cons_some x rest t hx hr] at h; exact Option.noConfusion h
        | none =>
          rw [extractJson_cons_none x rest hr] at h
          have hrb : rbrace ∉ rest := (takeToLastBrace_eq_none rest).mp hr
          rcases a with _ | ⟨y, a'⟩
          · simp only [List.nil_append] at heq
            injection heq with h1 h2
            exact hrb (h2 ▸ (by simp : rbrace ∈ b ++ rbrace :: c))
          · simp only [List.cons_append] at heq
            injection heq with h1 h2
            exact (ih.mp h) a' b c h2
      · rw [extractJson_cons_ne x rest hx] at h
        rcases a with _ | ⟨y, a'⟩
        · simp only [List.nil_append] at heq
          injection heq with h1 h2
          exact hx h1
        · simp only [List.cons_append] at heq
          injection heq with h1 h2
          exact (ih.mp h) a' b c h2
    · intro h
      by_cases hx : x = lbrace
      · cases hr : takeToLastBrace rest with
        | some t =>
          obtain ⟨b, c, hl, hcb, _⟩ := takeToLastBrace_eq_some rest t hr
          exact absurd (by rw [hl, hx]; rfl : x :: rest = [] ++ lbrace :: b ++ rbrace :: c)
            (h [] b c)

        | none =>
          rw [extractJson_cons_none x rest hr]
          exact ih.mpr (fun a b c heq => h (x :: a) b c (by rw [heq]; rfl))
      · rw [extractJson_cons_ne x rest hx]
        exact ih.mpr (fun a b c heq => h (x :: a) b c (by rw [heq]; rfl))

theorem takeToLastBrace_append_right (l v : List Char) (hv : rbrace ∉ v) :
    takeToLastBrace (l ++ v) = takeToLastBrace l := by
  induction l with
  | nil =>
    simp only [List.nil_append]
    rw [(takeToLastBrace_eq_none v).mpr hv]
    rfl
  | cons c rest ih =>
    simp only [List.cons_append]
    unfold takeToLastBrace
    rw [ih]

theorem extractJson_append_right (s v : List Char) (hv : rbrace ∉ v) :
    extractJson (s ++ v) = extractJson s := by
  induction s with
  | nil =>
    simp only [List.nil_append]
    exact extractJson_no_rbrace v hv
  | cons c rest ih =>
    simp only [List.cons_append]
    by_cases hc : c = lbrace
    · cases hr : takeToLastBrace rest with
      | some t =>
        rw [extractJson_cons_some c rest t hc hr,
          extractJson_cons_some c (rest ++ v) t hc
            (by rw [takeToLastBrace_append_right rest v hv]; exact hr)]
      | none =>
        rw [extractJson_cons_none c rest hr,
          extractJson_cons_none c (rest ++ v)
            (by rw [takeToLastBrace_append_right rest v hv]; exact hr)]
        exact ih
    · rw [extractJson_cons_ne c rest hc, extractJson_cons_ne c (rest ++ v) hc]
      exact ih

theorem extractJson_append_left (u s : List Char) (hu : lbrace ∉ u) :
    extractJson (u ++ s) = extractJson s := by
  induction u with
  | nil => rfl
  | cons c rest ih =>
    have hc : c ≠ lbrace := fun h => hu (h ▸ List.mem_cons_self c rest)
    have hrest : lbrace ∉ rest := fun hm => hu (List.mem_cons_of_mem _ hm)
    simp only [List.cons_append]
    rw [extractJson_cons_ne c (rest ++ s) hc]
    exact ih hrest

theorem BFInfix.refl (a : List Char) : BFInfix a a :=
  ⟨[], [], by simp, ⟨by simp, by simp⟩, ⟨by simp, by simp⟩⟩

theorem BFInfix.trans {a b c : List Char} (h1 : BFInfix a b) (h2 : BFInfix b c) :
    BFInfix a c := by
  obtain ⟨u1, v1, he1, hu1, hv1⟩ := h1
  obtain ⟨u2, v2, he2, hu2, hv2⟩ := h2
  refine ⟨u2 ++ u1, v1 ++ v2, ?_, ⟨?_, ?_⟩, ⟨?_, ?_⟩⟩
  · rw [he2, he1]; simp [List.append_assoc]
  · intro hm
    rcases List.mem_append.mp hm with h | h
    exacts [hu2.1 h, hu1.1 h]
  · intro hm
    rcases List.mem_append.mp hm with h | h
    exacts [hu2.2 h, hu1.2 h]
  · intro hm
    rcases List.mem_append.mp hm with h | h
    exacts [hv1.1 h, hv2.1 h]
  · intro hm
    rcases List.mem_append.mp hm with h | h
    exacts [hv1.2 h, hv2.2 h]

theorem extractJson_of_bfInfix {a b : List Char} (h : BFInfix a b) :
    extractJson b = extractJson a := by
  obtain ⟨u, v, he, hu, hv⟩ := h
  rw [he, List.append_assoc, extractJson_append_left u _ hu.1,
    extractJson_append_right a v hv.2]

theorem isWs_not_brace (c : Char) (h : isWs c = true) : c ≠ lbrace ∧ c ≠ rbrace := by
  simp only [isWs, Bool.or_eq_true, decide_eq_true_eq] at h
  rcases h with ((((h | h) | h) | h) | h) | h <;> subst h <;> exact ⟨by decide, by decide⟩

theorem dropWhile_decomp (p : Char → Bool) (l : List Char) :
    ∃ u, l = u ++ l.dropWhile p ∧ ∀ c ∈ u, p c = true := by
  refine ⟨l.takeWhile p, (List.takeWhile_append_dropWhile p l).symm, ?_⟩
  intro c hc
  exact List.mem_takeWhile_imp hc

theorem dropWhileRight_decomp (p : Char → Bool) (l : List Char) :
    ∃ v, l = dropWhileRight p l ++ v ∧ ∀ c ∈ v, p c = true := by
  refine ⟨(l.reverse.takeWhile p).reverse, ?_, ?_⟩
  · unfold dropWhileRight
    conv_lhs => rw [← l.reverse_reverse, ← List.takeWhile_append_dropWhile p l.reverse]
    rw [List.reverse_append]
  · intro c hc
    exact List.mem_takeWhile_imp (List.mem_reverse.mp hc)

theorem trimChars_decomp (l : List Char) :
    ∃ u v, l = u ++ trimChars l ++ v ∧
      (∀ c ∈ u, isWs c = true) ∧ (∀ c ∈ v, isWs c = true) := by
  obtain ⟨u, hu, hup⟩ := dropWhile_decomp isWs l
  obtain ⟨v, hv, hvp⟩ := dropWhileRight_decomp isWs (l.dropWhile isWs)
  refine ⟨u, v, ?_, hup, hvp⟩
  conv_lhs => rw [hu, hv]
  simp only [trimChars, List.append_assoc]

theorem braceFree_of_allWs (l : List Char) (h : ∀ c ∈ l, isWs c = true) :
    braceFree l :=
  ⟨fun hm => (isWs_not_brace _ (h _ hm)).1 rfl, fun hm => (isWs_not_brace _ (h _ hm)).2 rfl⟩

theorem trimChars_bfInfix (l : List Char) : BFInfix (trimChars l) l := by
  obtain ⟨u, v, he, hu, hv⟩ := trimChars_decomp l
  exact ⟨u, v, he, braceFree_of_allWs u hu, braceFree_of_allWs v hv⟩

theorem take_braceFree_of_ticks (t : List Char) (h : t.take 3 = [tick, tick, tick]) :
    braceFree (t.take 3) := by
  rw [h]
  exact ⟨by decide, by decide⟩

theorem braceFree_nil : braceFree [] := ⟨by simp, by simp⟩

theorem bfInfix_drop (t : List Char) (n : Nat) (h : braceFree (t.take n)) :
    BFInfix (t.drop n) t :=
  ⟨t.take n, [], by simp, h, braceFree_nil⟩

theorem bfInfix_dropWhile (p : Char → Bool) (t : List Char)
    (hp : ∀ c, p c = true → c ≠ lbrace ∧ c ≠ rbrace) :
    BFInfix (t.dropWhile p) t := by
  obtain ⟨u, hu, hup⟩ := dropWhile_decomp p t
  exact ⟨u, [], by rw [← hu]; simp, ⟨fun hm => (hp _ (hup _ hm)).1 rfl,
    fun hm => (hp _ (hup _ hm)).2 rfl⟩, braceFree_nil⟩

theorem bfInfix_dropWhileRight (p : Char → Bool) (t : List Char)
    (hp : ∀ c, p c = true → c ≠ lbrace ∧ c ≠ rbrace) :
    BFInfix (dropWhileRight p t) t := by
  obtain ⟨v, hv, hvp⟩ := dropWhileRight_decomp p t
  exact ⟨[], v, by simp only [List.nil_append]; exact hv, braceFree_nil,
    ⟨fun hm => (hp _ (hvp _ hm)).1 rfl, fun hm => (hp _ (hvp _ hm)).2 rfl⟩⟩

theorem fenceStartStrip_bfInfix (t : List Char) (h3 : t.take 3 = [tick, tick, tick]) :
    BFInfix (fenceStartStrip t) t := by
  have hA : BFInfix (t.drop 3) t :=
    bfInfix_drop t 3 (by rw [h3]; exact ⟨by decide, by decide⟩)
  have hB : BFInfix
      (if (t.drop 3).take 4 = ['j', 's', 'o', 'n'] then (t.drop 3).drop 4 else t.drop 3)
      (t.drop 3) := by
    by_cases h4 : (t.drop 3).take 4 = ['j', 's', 'o', 'n']
    · rw [if_pos h4]
      exact bfInfix_drop _ 4 (by rw [h4]; exact ⟨by decide, by decide⟩)
    · rw [if_neg h4]
      exact BFInfix.refl _
  have hC : BFInfix (fenceStartStrip t)
      (if (t.drop 3).take 4 = ['j', 's', 'o', 'n'] then (t.drop 3).drop 4 else t.drop 3) :=
    bfInfix_dropWhile isWs _ (fun c h => isWs_not_brace c h)
  exact (hC.trans hB).trans hA

theorem fenceEndStrip_bfInfix (t : List Char) : BFInfix (fenceEndStrip t) t := by
  unfold fenceEndStrip
  by_cases h3 : t.reverse.take 3 = [tick, tick, tick]
  · rw [if_pos h3]
    have ht : t = (t.reverse.drop 3).reverse ++ [tick, tick, tick] := by
      conv_lhs => rw [← t.reverse_reverse, ← List.take_append_drop 3 t.reverse,
        List.reverse_append, h3]
      simp
    obtain ⟨v, hv, hvp⟩ := dropWhileRight_decomp isWs ((t.reverse.drop 3).reverse)
    refine ⟨[], v ++ [tick, tick, tick], ?_, braceFree_nil, ⟨?_, ?_⟩⟩
    · conv_lhs => rw [ht]
      conv_lhs => rw [hv]
      simp [List.append_assoc]
    · intro hm
      rcases List.mem_append.mp hm with h | h
      · exact (isWs_not_brace _ (hvp _ h)).1 rfl
      · simp at h; exact absurd h (by decide)
    · intro hm
      rcases List.mem_append.mp hm with h | h
      · exact (isWs_not_brace _ (hvp _ h)).2 rfl
      · simp at h; exact absurd h (by decide)
  · rw [if_neg h3]
    exact BFInfix.refl _

theorem stripRich_bfInfix (s : List Char) : BFInfix (stripRich s) s := by
  have h0 : BFInfix (trimChars s) s := trimChars_bfInfix s
  have h1 : BFInfix
      (if (trimChars s).take 3 = [tick, tick, tick]
        then fenceEndStrip (fenceStartStrip (trimChars s)) else trimChars s)
      (trimChars s) := by
    by_cases h3 : (trimChars s).take 3 = [tick, tick, tick]
    · rw [if_pos h3]
      exact (fenceEndStrip_bfInfix _).trans (fenceStartStrip_bfInfix _ h3)
    · rw [if_neg h3]
      exact BFInfix.refl _
  have htick : ∀ c : Char, (decide (c = tick)) = true → c ≠ lbrace ∧ c ≠ rbrace := by
    intro c h
    have := of_decide_eq_true h
    subst this
    exact ⟨by decide, by decide⟩
  have h2 : BFInfix
      (dropWhileRight (fun c => c = tick)
        ((if (trimChars s).take 3 = [tick, tick, tick]
          then fenceEndStrip (fenceStartStrip (trimChars s)) else trimChars s).dropWhile
          (fun c => c = tick)))
      (if (trimChars s).take 3 = [tick, tick, tick]
        then fenceEndStrip (fenceStartStrip (trimChars s)) else trimChars s) :=
    (bfInfix_dropWhileRight _ _ htick).trans (bfInfix_dropWhile _ _ htick)
  have h3 : BFInfix (stripRich s)
      (dropWhileRight (fun c => c = tick)
        ((if (trimChars s).take 3 = [tick, tick, tick]
          then fenceEndStrip (fenceStartStrip (trimChars s)) else trimChars s).dropWhile
          (fun c => c = tick))) :=
    trimChars_bfInfix _
  exact ((h3.trans h2).trans h1).trans h0

theorem fenceStartStripStrict_bfInfix (t : List Char)
    (h3 : t.take 3 = [tick, tick, tick]) : BFInfix (fenceStartStripStrict t) t := by
  have hA : BFInfix (t.drop 3) t :=
    bfInfix_drop t 3 (by rw [h3]; exact ⟨by decide, by decide⟩)
  have hB : BFInfix
      (if (t.drop 3).take 4 = ['j', 's', 'o', 'n'] then (t.drop 3).drop 4 else t.drop 3)
      (t.drop 3) := by
    by_cases h4 : (t.drop 3).take 4 = ['j', 's', 'o', 'n']
    · rw [if_pos h4]
      exact bfInfix_drop _ 4 (by rw [h4]; exact ⟨by decide, by decide⟩)
    · rw [if_neg h4]
      exact BFInfix.refl _
  refine BFInfix.trans ?_ (hB.trans hA)
  unfold fenceStartStripStrict
  cases h2 : (if (t.drop 3).take 4 = ['j', 's', 'o', 'n'] then (t.drop 3).drop 4 else t.drop 3) with
  | nil => simp only [h2]; exact BFInfix.refl _
  | cons c rest =>
    simp only [h2]
    by_cases hc : c = '\n'
    · rw [if_pos hc]
      exact ⟨[c], [], by simp, ⟨by simp [hc]; decide, by simp [hc]; decide⟩, braceFree_nil⟩
    · rw [if_neg hc]
      exact BFInfix.refl _

theorem fenceEndStripStrict_bfInfix (t : List Char) : BFInfix (fenceEndStripStrict t) t := by
  unfold fenceEndStripStrict
  by_cases h3 : t.reverse.take 3 = [tick, tick, tick]
  · rw [if_pos h3]
    have ht : t = (t.reverse.drop 3).reverse ++ [tick, tick, tick] := by
      conv_lhs => rw [← t.reverse_reverse, ← List.take_append_drop 3 t.reverse,
        List.reverse_append, h3]
      simp
    have hticks : braceFree [tick, tick, tick] := ⟨by decide, by decide⟩
    have hT1 : BFInfix ((t.reverse.drop 3).reverse) t :=
      ⟨[], [tick, tick, tick], by simp only [List.nil_append]; exact ht, braceFree_nil, hticks⟩
    refine BFInfix.trans ?_ hT1
    show BFInfix
      (match ((t.reverse.drop 3).reverse).reverse with
        | c :: rest => if c = '\n' then rest.reverse else (t.reverse.drop 3).reverse
        | [] => (t.reverse.drop 3).reverse)
      ((t.reverse.drop 3).reverse)
    cases hr : (t.reverse.drop 3).reverse.reverse with
    | nil => simp only [hr]; exact BFInfix.refl _
    | cons c rest =>
      simp only [hr]
      by_cases hc : c = '\n'
      · rw [if_pos hc]
        have hdec : (t.reverse.drop 3).reverse = rest.reverse ++ [c] := by
          conv_lhs => rw [← ((t.reverse.drop 3).reverse).reverse_reverse, hr]
          simp
        exact ⟨[], [c], by simp only [List.nil_append]; exact hdec, braceFree_nil,
          ⟨by simp [hc]; decide, by simp [hc]; decide⟩⟩
      · rw [if_neg hc]
        exact BFInfix.refl _
  · rw [if_neg h3]
    exact BFInfix.refl _

theorem stripStrict_bfInfix (s : List Char) : BFInfix (stripStrict s) s := by
  have h0 : BFInfix (trimChars s) s := trimChars_bfInfix s
  refine BFInfix.trans ?_ h0
  unfold stripStrict
  by_cases h3 : (trimChars s).take 3 = [tick, tick, tick]
  · rw [if_pos h3]
    exact (fenceEndStripStrict_bfInfix _).trans (fenceStartStripStrict_bfInfix _ h3)
  · rw [if_neg h3]
    exact BFInfix.refl _

theorem braceFree_append {u v : List Char} (hu : braceFree u) (hv : braceFree v) :
    braceFree (u ++ v) := by
  refine ⟨?_, ?_⟩ <;> intro hm <;> rcases List.mem_append.mp hm with h | h
  exacts [hu.1 h, hv.1 h, hu.2 h, hv.2 h]

theorem braceFree_ticks : braceFree [tick, tick, tick] := ⟨by decide, by decide⟩

theorem braceFree_jsonTag (tag : Bool) :
    braceFree (if tag then ['j', 's', 'o', 'n'] else []) := by
  cases tag
  · exact braceFree_nil
  · exact ⟨by decide, by decide⟩

theorem wrapFence_bfInfix (tag : Bool) (ws1 ws2 ws3 ws4 t : List Char)
    (h1 : ∀ c ∈ ws1, isWs c = true) (h2 : ∀ c ∈ ws2, isWs c = true)
    (h3 : ∀ c ∈ ws3, isWs c = true) (h4 : ∀ c ∈ ws4, isWs c = true) :
    BFInfix t (wrapFence tag ws1 ws2 ws3 ws4 t) := by
  refine ⟨ws1 ++ [tick, tick, tick] ++ (if tag then ['j', 's', 'o', 'n'] else []) ++ ws2,
    ws3 ++ [tick, tick, tick] ++ ws4, ?_, ?_, ?_⟩
  · unfold wrapFence
    simp [List.append_assoc]
  · exact braceFree_append (braceFree_append (braceFree_append
      (braceFree_of_allWs ws1 h1) braceFree_ticks) (braceFree_jsonTag tag))
      (braceFree_of_allWs ws2 h2)
  · exact braceFree_append (braceFree_append (braceFree_of_allWs ws3 h3) braceFree_ticks)
      (braceFree_of_allWs ws4 h4)

theorem parseResponseRich_ext (jp : List Char → Option JVal) {r1 r2 : List Char}
    (h : extractJson (stripRich r1) = extractJson (stripRich r2)) :
    parseResponseRich jp r1 = parseResponseRich jp r2 := by
  unfold parseResponseRich
  rw [h]

theorem parseResponseStrict_ext (jp : List Char → Option JVal) {r1 r2 : List Char}
    (h : extractJson (stripStrict r1) = extractJson (stripStrict r2)) :
    parseResponseStrict jp r1 = parseResponseStrict jp r2 := by
  unfold parseResponseStrict
  rw [h]

theorem extract_through_wrap_rich (tag : Bool) (ws1 ws2 ws3 ws4 t : List Char)
    (h1 : ∀ c ∈ ws1, isWs c = true) (h2 : ∀ c ∈ ws2, isWs c = true)
    (h3 : ∀ c ∈ ws3, isWs c = true) (h4 : ∀ c ∈ ws4, isWs c = true) :
    extractJson (stripRich (wrapFence tag ws1 ws2 ws3 ws4 t)) = extractJson (stripRich t) := by
  rw [← extractJson_of_bfInfix (stripRich_bfInfix (wrapFence tag ws1 ws2 ws3 ws4 t)),
    extractJson_of_bfInfix (wrapFence_bfInfix tag ws1 ws2 ws3 ws4 t h1 h2 h3 h4),
    extractJson_of_bfInfix (stripRich_bfInfix t)]

theorem extract_through_wrap_strict (tag : Bool) (ws1 ws2 ws3 ws4 t : List Char)
    (h1 : ∀ c ∈ ws1, isWs c = true) (h2 : ∀ c ∈ ws2, isWs c = true)
    (h3 : ∀ c ∈ ws3, isWs c = true) (h4 : ∀ c ∈ ws4, isWs c = true) :
    extractJson (stripStrict (wrapFence tag ws1 ws2 ws3 ws4 t)) =
      extractJson (stripStrict t) := by
  rw [← extractJson_of_bfInfix (stripStrict_bfInfix (wrapFence tag ws1 ws2 ws3 ws4 t)),
    extractJson_of_bfInfix (wrapFence_bfInfix tag ws1 ws2 ws3 ws4 t h1 h2 h3 h4),
    extractJson_of_bfInfix (stripStrict_bfInfix t)]

theorem hasKeyE_obj (fs : List (String × JVal)) (k : String) :
    hasKeyE (JVal.obj fs) k = Except.ok (fs.any (fun f => f.1 = k)) := rfl

theorem checkRequired_obj_missing (l : List String) (fs : List (String × JVal))
    (k : String) (hk : k ∈ l) (hmiss : fs.any (fun f => f.1 = k) = false) :
    ∃ k', k' ∈ l ∧
      checkRequired l (JVal.obj fs) = Except.error ("Missing required field: " ++ k') := by
  induction l with
  | nil => cases hk
  | cons x xs ih =>
    cases hx : fs.any (fun f => f.1 = x) with
    | false =>
      refine ⟨x, List.mem_cons_self _ _, ?_⟩
      unfold checkRequired
      rw [hasKeyE_obj, hx]
    | true =>
      have hk' : k ∈ xs := by
        rcases List.mem_cons.mp hk with h | h
        · subst h; rw [hx] at hmiss; cases hmiss
        · exact h
      obtain ⟨k', hk'', hcr⟩ := ih hk'
      refine ⟨k', List.mem_cons_of_mem _ hk'', ?_⟩
      unfold checkRequired
      rw [hasKeyE_obj, hx]
      exact hcr

theorem normalizeRich_error_of_check (v : JVal) (m : String)
    (h : checkRequired richRequired v = Except.error m) :
    normalizeRich v = Except.error m := by
  unfold normalizeRich
  rw [h]
  rfl

theorem normalizeSimple_error_of_check (v : JVal) (m : String)
    (h : checkRequired simpleRequired v = Except.error m) :
    normalizeSimple v = Except.error m := by
  unfold normalizeSimple
  rw [h]
  rfl

theorem normalizeStrict_error_of_check (v : JVal) (m : String)
    (h : checkRequired richRequired v = Except.error m) :
    normalizeStrict v = Except.error m := by
  unfold normalizeStrict
  rw [h]
  rfl

theorem except_bind_error {α β : Type} (e : String) (f : α → Except String β) :
    (Except.error e >>= f) = Except.error e := rfl

theorem except_bind_ok {α β : Type} (a : α) (f : α → Except String β) :
    (Except.ok a >>= f) = f a := rfl

theorem normSkill_ok (sk out : JVal) (h : normSkill sk = Except.ok out) :
    skillOk out = true := by
  unfold normSkill at h
  cases hn : getFieldE sk "name" with
  | error e => rw [hn, except_bind_error] at h; cases h
  | ok name =>
    rw [hn, except_bind_ok] at h
    cases hl : getFieldE sk "level" with
    | error e => rw [hl, except_bind_error] at h; cases h
    | ok level =>
      rw [hl, except_bind_ok] at h
      injection h with h
      subst h
      by_cases hlv : isLevel level = true
      · simp [skillOk, jget, List.find?, if_pos hlv, hlv]
      · simp only [Bool.not_eq_true] at hlv
        simp [skillOk, jget, List.find?, hlv]
        decide

theorem normSkills_ok (sks outs : List JVal) (h : normSkills sks = Except.ok outs) :
    outs.all skillOk = true := by
  induction sks generalizing outs with
  | nil =>
    unfold normSkills at h
    injection h with h
    subst h
    rfl
  | cons sk rest ih =>
    unfold normSkills at h
    cases h1 : normSkill sk with
    | error e => rw [h1, except_bind_error] at h; cases h
    | ok out =>
      rw [h1, except_bind_ok] at h
      cases h2 : normSkills rest with
      | error e => rw [h2, except_bind_error] at h; cases h
      | ok outs' =>
        rw [h2, except_bind_ok] at h
        injection h with h
        subst h
        simp only [List.all_cons, Bool.and_eq_true]
        exact ⟨normSkill_ok sk out h1, ih outs' h2⟩

theorem normPhase_ok (n : Nat) (p out : JVal) (h : normPhase n p = Except.ok out) :
    phaseOk out = true := by
  unfold normPhase at h
  cases h1 : getFieldE p "title" with
  | error e => rw [h1, except_bind_error] at h; cases h
  | ok title =>
  rw [h1, except_bind_ok] at h
  cases h2 : getFieldE p "description" with
  | error e => rw [h2, except_bind_error] at h; cases h
  | ok descr =>
  rw [h2, except_bind_ok] at h
  cases h3 : getFieldE p "skills" with
  | error e => rw [h3, except_bind_error] at h; cases h
  | ok skillsV =>
  rw [h3, except_bind_ok] at h
  cases h4 : skillsStep skillsV with
  | error e => rw [h4, except_bind_error] at h; cases h
  | ok skills =>
  rw [h4, except_bind_ok] at h
  cases h5 : getFieldE p "tools" with
  | error e => rw [h5, except_bind_error] at h; cases h
  | ok toolsV =>
  rw [h5, except_bind_ok] at h
  cases h6 : getFieldE p "projects" with
  | error e => rw [h6, except_bind_error] at h; cases h
  | ok projectsV =>
  rw [h6, except_bind_ok] at h
  injection h with h
  subst h
  have hskills : skills.all skillOk = true := by
    cases skillsV with
    | arr sks => exact normSkills_ok sks skills h4
    | undef => unfold skillsStep at h4; injection h4 with h4; subst h4; rfl
    | jnull => unfold skillsStep at h4; injection h4 with h4; subst h4; rfl
    | bool b => unfold skillsStep at h4; injection h4 with h4; subst h4; rfl
    | num q => unfold skillsStep at h4; injection h4 with h4; subst h4; rfl
    | str s => unfold skillsStep at h4; injection h4 with h4; subst h4; rfl
    | obj fs => unfold skillsStep at h4; injection h4 with h4; subst h4; rfl
  simp [phaseOk, jget, List.find?, hskills]
  constructor
  · cases toolsV <;> simp [isArrV]
  · cases projectsV <;> simp [isArrV]

theorem normPhases_ok (n : Nat) (ps outs : List JVal)
    (h : normPhases n ps = Except.ok outs) : outs.all phaseOk = true := by
  induction ps generalizing n outs with
  | nil =>
    unfold normPhases at h
    injection h with h
    subst h
    rfl
  | cons p rest ih =>
    unfold normPhases at h
    cases h1 : normPhase n p with
    | error e => rw [h1, except_bind_error] at h; cases h
    | ok out =>
      rw [h1, except_bind_ok] at h
      cases h2 : normPhases (n + 1) rest with
      | error e => rw [h2, except_bind_error] at h; cases h
      | ok outs' =>
        rw [h2, except_bind_ok] at h
        injection h with h
        subst h
        simp only [List.all_cons, Bool.and_eq_true]
        exact ⟨normPhase_ok n p out h1, ih (n + 1) outs' h2⟩

theorem normLearning_ok (r out : JVal) (h : normLearning r = Except.ok out) :
    learningOk out = true := by
  unfold normLearning at h
  cases h1 : getFieldE r "skill" with
  | error e => rw [h1, except_bind_error] at h; cases h
  | ok skill =>
  rw [h1, except_bind_ok] at h
  cases h2 : getFieldE r "type" with
  | error e => rw [h2, except_bind_error] at h; cases h
  | ok ty =>
  rw [h2, except_bind_ok] at h
  cases h3 : getFieldE r "title" with
  | error e => rw [h3, except_bind_error] at h; cases h
  | ok title =>
  rw [h3, except_bind_ok] at h
  cases h4 : getFieldE r "description" with
  | error e => rw [h4, except_bind_error] at h; cases h
  | ok descr =>
  rw [h4, except_bind_ok] at h
  injection h with h
  subst h
  by_cases hty : isResType ty = true
  · simp [learningOk, jget, List.find?, if_pos hty, hty]
  · simp only [Bool.not_eq_true] at hty
    simp [learningOk, jget, List.find?, hty]
    decide

theorem normLearnings_ok (rs outs : List JVal) (h : normLearnings rs = Except.ok outs) :
    outs.all learningOk = true := by
  induction rs generalizing outs with
  | nil =>
    unfold normLearnings at h
    injection h with h
    subst h
    rfl
  | cons r rest ih =>
    unfold normLearnings at h
    cases h1 : normLearning r with
    | error e => rw [h1, except_bind_error] at h; cases h
    | ok out =>
      rw [h1, except_bind_ok] at h
      cases h2 : normLearnings rest with
      | error e => rw [h2, except_bind_error] at h; cases h
      | ok outs' =>
        rw [h2, except_bind_ok] at h
        injection h with h
        subst h
        simp only [List.all_cons, Bool.and_eq_true]
        exact ⟨normLearning_ok r out h1, ih outs' h2⟩

theorem normCommunity_ok (cm out : JVal) (h : normCommunity cm = Except.ok out) :
    communityOk out = true := by
  unfold normCommunity at h
  cases h1 : getFieldE cm "name" with
  | error e => rw [h1, except_bind_error] at h; cases h
  | ok name =>
  rw [h1, except_bind_ok] at h
  cases h2 : getFieldE cm "platform" with
  | error e => rw [h2, except_bind_error] at h; cases h
  | ok platform =>
  rw [h2, except_bind_ok] at h
  cases h3 : getFieldE cm "purpose" with
  | error e => rw [h3, except_bind_error] at h; cases h
  | ok purpose =>
  rw [h3, except_bind_ok] at h
  injection h with h
  subst h
  by_cases hp : isPlatform platform = true
  · simp [communityOk, jget, List.find?, if_pos hp, hp]
  · simp only [Bool.not_eq_true] at hp
    simp [communityOk, jget, List.find?, hp]
    decide

theorem normCommunities_ok (cs outs : List JVal)
    (h : normCommunities cs = Except.ok outs) : outs.all communityOk = true := by
  induction cs generalizing outs with
  | nil =>
    unfold normCommunities at h
    injection h with h
    subst h
    rfl
  | cons cm rest ih =>
    unfold normCommunities at h
    cases h1 : normCommunity cm with
    | error e => rw [h1, except_bind_error] at h; cases h
    | ok out =>
      rw [h1, except_bind_ok] at h
      cases h2 : normCommunities rest with
      | error e => rw [h2, except_bind_error] at h; cases h
      | ok outs' =>
        rw [h2, except_bind_ok] at h
        injection h with h
        subst h
        simp only [List.all_cons, Bool.and_eq_true]
        exact ⟨normCommunity_ok cm out h1, ih outs' h2⟩

theorem phasesStep_ok (v : JVal) (outs : List JVal)
    (h : phasesStep v = Except.ok outs) : outs.all phaseOk = true := by
  cases v with
  | arr ps => exact normPhases_ok 1 ps outs h
  | undef => unfold phasesStep at h; injection h with h; subst h; rfl
  | jnull => unfold phasesStep at h; injection h with h; subst h; rfl
  | bool b => unfold phasesStep at h; injection h with h; subst h; rfl
  | num q => unfold phasesStep at h; injection h with h; subst h; rfl
  | str s => unfold phasesStep at h; injection h with h; subst h; rfl
  | obj fs => unfold phasesStep at h; injection h with h; subst h; rfl

theorem learningStep_ok (v : JVal) (outs : List JVal)
    (h : learningStep v = Except.ok outs) : outs.all learningOk = true := by
  cases v with
  | arr rs => exact normLearnings_ok rs outs h
  | undef => unfold learningStep at h; injection h with h; subst h; rfl
  | jnull => unfold learningStep at h; injection h with h; subst h; rfl
  | bool b => unfold learningStep at h; injection h with h; subst h; rfl
  | num q => unfold learningStep at h; injection h with h; subst h; rfl
  | str s => unfold learningStep at h; injection h with h; subst h; rfl
  | obj fs => unfold learningStep at h; injection h with h; subst h; rfl

theorem communitiesStep_ok (v : JVal) (outs : List JVal)
    (h : communitiesStep v = Except.ok outs) : outs.all communityOk = true := by
  cases v with
  | arr cs => exact normCommunities_ok cs outs h
  | undef => unfold communitiesStep at h; injection h with h; subst h; rfl
  | jnull => unfold communitiesStep at h; injection h with h; subst h; rfl
  | bool b => unfold communitiesStep at h; injection h with h; subst h; rfl
  | num q => unfold communitiesStep at h; injection h with h; subst h; rfl
  | str s => unfold communitiesStep at h; injection h with h; subst h; rfl
  | obj fs => unfold communitiesStep at h; injection h with h; subst h; rfl

theorem normalizeRich_schemaComplete (v d : JVal) (h : normalizeRich v = Except.ok d) :
    schemaComplete d = true := by
  unfold normalizeRich at h
  cases hc : checkRequired richRequired v with
  | error e => rw [hc, except_bind_error] at h; cases h
  | ok u =>
  rw [hc, except_bind_ok] at h
  cases h1 : getFieldE v "meta" with
  | error e => rw [h1, except_bind_error] at h; cases h
  | ok pMeta =>
  rw [h1, except_bind_ok] at h
  cases h2 : getFieldE v "understanding" with
  | error e => rw [h2, except_bind_error] at h; cases h
  | ok pUnd =>
  rw [h2, except_bind_ok] at h
  cases h3 : getFieldE v "roadmap" with
  | error e => rw [h3, except_bind_error] at h; cases h
  | ok pRoadmap =>
  rw [h3, except_bind_ok] at h
  cases h4 : phasesStep (optGet pRoadmap "phases") with
  | error e => rw [h4, except_bind_error] at h; cases h
  | ok phases =>
  rw [h4, except_bind_ok] at h
  cases h5 : learningStep (optGet (optGet pRoadmap "resources") "learning") with
  | error e => rw [h5, except_bind_error] at h; cases h
  | ok learning =>
  rw [h5, except_bind_ok] at h
  cases h6 : communitiesStep (optGet (optGet pRoadmap "resources") "communities") with
  | error e => rw [h6, except_bind_error] at h; cases h
  | ok communities =>
  rw [h6, except_bind_ok] at h
  injection h with h
  subst h
  have hconf : ∃ q : Rat, (match optGet pMeta "confidence" with
      | JVal.num q' => JVal.num (max 0 (min 100 q'))
      | _ => JVal.num 60) = JVal.num q ∧ 0 ≤ q ∧ q ≤ 100 := by
    cases optGet pMeta "confidence" with
    | num q' =>
      exact ⟨max 0 (min 100 q'), rfl, le_max_left _ _,
        max_le (by norm_num) (min_le_left _ _)⟩
    | undef => exact ⟨60, rfl, by norm_num, by norm_num⟩
    | jnull => exact ⟨60, rfl, by norm_num, by norm_num⟩
    | bool b => exact ⟨60, rfl, by norm_num, by norm_num⟩
    | str s => exact ⟨60, rfl, by norm_num, by norm_num⟩
    | arr xs => exact ⟨60, rfl, by norm_num, by norm_num⟩
    | obj fs => exact ⟨60, rfl, by norm_num, by norm_num⟩
  obtain ⟨cq, hcq, hcq0, hcq100⟩ := hconf
  have hhpw : ∃ q : Rat, (match optGet pUnd "hoursPerWeek" with
      | JVal.num q' => JVal.num (max 0 q')
      | _ => JVal.num 20) = JVal.num q ∧ 0 ≤ q := by
    cases optGet pUnd "hoursPerWeek" with
    | num q' => exact ⟨max 0 q', rfl, le_max_left _ _⟩
    | undef => exact ⟨20, rfl, by norm_num⟩
    | jnull => exact ⟨20, rfl, by norm_num⟩
    | bool b => exact ⟨20, rfl, by norm_num⟩
    | str s => exact ⟨20, rfl, by norm_num⟩
    | arr xs => exact ⟨20, rfl, by norm_num⟩
    | obj fs => exact ⟨20, rfl, by norm_num⟩
  obtain ⟨hq, hhq, hhq0⟩ := hhpw
  have hint : ∃ l : List JVal,
      (if isArrV (optGet pUnd "interests") = true then optGet pUnd "interests"
        else JVal.arr []) = JVal.arr l := by
    cases hi : optGet pUnd "interests" with
    | arr xs => exact ⟨xs, by simp [isArrV]⟩
    | undef => exact ⟨[], by simp [isArrV]⟩
    | jnull => exact ⟨[], by simp [isArrV]⟩
    | bool b => exact ⟨[], by simp [isArrV]⟩
    | num q => exact ⟨[], by simp [isArrV]⟩
    | str s => exact ⟨[], by simp [isArrV]⟩
    | obj fs => exact ⟨[], by simp [isArrV]⟩
  obtain ⟨il, hil⟩ := hint
  rw [hcq, hhq, hil]
  simp [schemaComplete, hasKeyB, jget, List.find?, isArrV, hcq0, hcq100, hhq0,
    phasesStep_ok _ _ h4, learningStep_ok _ _ h5, communitiesStep_ok _ _ h6]

theorem getFieldE_ok_eq (v : JVal) (k : String) (x : JVal)
    (h : getFieldE v k = Except.ok x) : x = jget v k := by
  cases v <;> simp [getFieldE] at h <;> exact h.symm

theorem normPhase_id (n : Nat) (p out : JVal) (h : normPhase n p = Except.ok out) :
    jget out "id" = JVal.str ("phase-" ++ toString n) := by
  unfold normPhase at h
  cases h1 : getFieldE p "title" with
  | error e => rw [h1, except_bind_error] at h; cases h
  | ok title =>
  rw [h1, except_bind_ok] at h
  cases h2 : getFieldE p "description" with
  | error e => rw [h2, except_bind_error] at h; cases h
  | ok descr =>
  rw [h2, except_bind_ok] at h
  cases h3 : getFieldE p "skills" with
  | error e => rw [h3, except_bind_error] at h; cases h
  | ok skillsV =>
  rw [h3, except_bind_ok] at h
  cases h4 : skillsStep skillsV with
  | error e => rw [h4, except_bind_error] at h; cases h
  | ok skills =>
  rw [h4, except_bind_ok] at h
  cases h5 : getFieldE p "tools" with
  | error e => rw [h5, except_bind_error] at h; cases h
  | ok toolsV =>
  rw [h5, except_bind_ok] at h
  cases h6 : getFieldE p "projects" with
  | error e => rw [h6, except_bind_error] at h; cases h
  | ok projectsV =>
  rw [h6, except_bind_ok] at h
  injection h with h
  subst h
  simp [jget, List.find?]

theorem normPhases_ids (n : Nat) (ps outs : List JVal)
    (h : normPhases n ps = Except.ok outs) :
    outs.length = ps.length ∧
      outs.map (fun p => jget p "id") =
        (List.range' n ps.length).map (fun i => JVal.str ("phase-" ++ toString i)) := by
  induction ps generalizing n outs with
  | nil =>
    unfold normPhases at h
    injection h with h
    subst h
    exact ⟨rfl, rfl⟩
  | cons p rest ih =>
    unfold normPhases at h
    cases h1 : normPhase n p with
    | error e => rw [h1, except_bind_error] at h; cases h
    | ok out =>
      rw [h1, except_bind_ok] at h
      cases h2 : normPhases (n + 1) rest with
      | error e => rw [h2, except_bind_error] at h; cases h
      | ok outs' =>
        rw [h2, except_bind_ok] at h
        injection h with h
        subst h
        obtain ⟨hlen, hmap⟩ := ih (n + 1) outs' h2
        refine ⟨by simp [hlen], ?_⟩
        simp only [List.length_cons, List.range'_succ, List.map_cons, hmap,
          normPhase_id n p out h1]

theorem normalizeRich_phase_ids (v d : JVal) (ps : List JVal)
    (h : normalizeRich v = Except.ok d)
    (hp : optGet (jget v "roadmap") "phases" = JVal.arr ps) :
    ∃ outs : List JVal, jget (jget d "roadmap") "phases" = JVal.arr outs ∧
      outs.length = ps.length ∧
      outs.map (fun p => jget p "id") =
        (List.range' 1 ps.length).map (fun i => JVal.str ("phase-" ++ toString i)) := by
  unfold normalizeRich at h
  cases hc : checkRequired richRequired v with
  | error e => rw [hc, except_bind_error] at h; cases h
  | ok u =>
  rw [hc, except_bind_ok] at h
  cases h1 : getFieldE v "meta" with
  | error e => rw [h1, except_bind_error] at h; cases h
  | ok pMeta =>
  rw [h1, except_bind_ok] at h
  cases h2 : getFieldE v "understanding" with
  | error e => rw [h2, except_bind_error] at h; cases h
  | ok pUnd =>
  rw [h2, except_bind_ok] at h
  cases h3 : getFieldE v "roadmap" with
  | error e => rw [h3, except_bind_error] at h; cases h
  | ok pRoadmap =>
  rw [h3, except_bind_ok] at h
  have hpr : pRoadmap = jget v "roadmap" := getFieldE_ok_eq v "roadmap" pRoadmap h3
  cases h4 : phasesStep (optGet pRoadmap "phases") with
  | error e => rw [h4, except_bind_error] at h; cases h
  | ok phases =>
  rw [h4, except_bind_ok] at h
  cases h5 : learningStep (optGet (optGet pRoadmap "resources") "learning") with
  | error e => rw [h5, except_bind_error] at h; cases h
  | ok learning =>
  rw [h5, except_bind_ok] at h
  cases h6 : communitiesStep (optGet (optGet pRoadmap "resources") "communities") with
  | error e => rw [h6, except_bind_error] at h; cases h
  | ok communities =>
  rw [h6, except_bind_ok] at h
  injection h with h
  subst h
  rw [hpr, hp] at h4
  obtain ⟨hlen, hmap⟩ := normPhases_ids 1 ps phases h4
  exact ⟨phases, by simp [jget, List.find?], hlen, hmap⟩

theorem normSkill_level (sk out : JVal) (h : normSkill sk = Except.ok out) :
    (isLevel (jget sk "level") = true → jget out "level" = jget sk "level") ∧
    (isLevel (jget sk "level") = false → jget out "level" = JVal.str "beginner") := by
  unfold normSkill at h
  cases h1 : getFieldE sk "name" with
  | error e => rw [h1, except_bind_error] at h; cases h
  | ok name =>
  rw [h1, except_bind_ok] at h
  cases h2 : getFieldE sk "level" with
  | error e => rw [h2, except_bind_error] at h; cases h
  | ok level =>
  rw [h2, except_bind_ok] at h
  injection h with h
  subst h
  have hlv : level = jget sk "level" := getFieldE_ok_eq sk "level" level h2
  subst hlv
  constructor
  · intro hl
    show (if isLevel (jget sk "level") then jget sk "level" else JVal.str "beginner") =
      jget sk "level"
    rw [if_pos hl]
  · intro hl
    show (if isLevel (jget sk "level") then jget sk "level" else JVal.str "beginner") =
      JVal.str "beginner"
    rw [if_neg (by simp [hl])]

theorem normSkills_levels (sks outs : List JVal) (h : normSkills sks = Except.ok outs) :
    List.Forall₂ (fun sk out =>
      (isLevel (jget sk "level") = true → jget out "level" = jget sk "level") ∧
      (isLevel (jget sk "level") = false → jget out "level" = JVal.str "beginner"))
      sks outs := by
  induction sks generalizing outs with
  | nil =>
    unfold normSkills at h
    injection h with h
    subst h
    exact List.Forall₂.nil
  | cons sk rest ih =>
    unfold normSkills at h
    cases h1 : normSkill sk with
    | error e => rw [h1, except_bind_error] at h; cases h
    | ok out =>
      rw [h1, except_bind_ok] at h
      cases h2 : normSkills rest with
      | error e => rw [h2, except_bind_error] at h; cases h
      | ok outs' =>
        rw [h2, except_bind_ok] at h
        injection h with h
        subst h
        exact List.Forall₂.cons (normSkill_level sk out h1) (ih outs' h2)

theorem dropWhile_replicate_append (p : Char → Bool) (a : Char) (hp : p a = true)
    (n : Nat) (l : List Char) :
    List.dropWhile p (List.replicate n a ++ l) = List.dropWhile p l := by
  induction n with
  | zero => simp
  | succ m ih =>
    rw [List.replicate_succ, List.cons_append, List.dropWhile_cons_of_pos hp]
    exact ih

theorem trimChars_longNarrative :
    trimChars longNarrative.data = List.replicate 10 'a' := by
  show trimChars (List.replicate 10 'a' ++ List.replicate 4991 ' ') = _
  unfold trimChars dropWhileRight
  have hdrop : List.dropWhile isWs (List.replicate 10 'a' ++ List.replicate 4991 ' ') =
      List.replicate 10 'a' ++ List.replicate 4991 ' ' := by
    rw [show List.replicate 10 'a' ++ List.replicate 4991 ' ' =
      'a' :: (List.replicate 9 'a' ++ List.replicate 4991 ' ') from rfl]
    rw [List.dropWhile_cons_of_neg (by decide)]
  rw [hdrop, List.reverse_append, List.reverse_replicate, List.reverse_replicate,
    dropWhile_replicate_append isWs ' ' (by decide)]
  have hdrop2 : List.dropWhile isWs (List.replicate 10 'a') = List.replicate 10 'a' := by
    rw [show (List.replicate 10 'a' : List Char) = 'a' :: List.replicate 9 'a' from rfl]
    rw [List.dropWhile_cons_of_neg (by decide)]
  rw [hdrop2, List.reverse_replicate]

theorem POSTrich_forwards (jp : List Char → Option JVal)
    (gemini : List Char → Except String (List Char)) (s : String)
    (hvalid : (validateNarrative (JVal.str s)).valid = true) :
    POSTrich jp gemini (Except.ok (JVal.obj [("narrative", JVal.str s)])) =
      forgeCoreRich jp gemini (JVal.str s) := by
  unfold POSTrich forgeCoreRich
  simp [getFieldE, jget, List.find?, hvalid]

/-- C1 counterexample: a parsed reply missing the required top-level key
`meta` (respectively `title`) makes every normalizer variant fail with a
missing-field error, including the most defensive rich-schema variant that
the claim calls lenient; no variant substitutes a default for a missing
required top-level key. -/
theorem claim1_counterexample :
    normalizeRich vNoMeta = Except.error "Missing required field: meta" ∧
    normalizeSimple vNoTitle = Except.error "Missing required field: title" ∧
    normalizeStrict vNoMeta = Except.error "Missing required field: meta" :=
  ⟨rfl, rfl, rfl⟩

/-- C1 (amended): when the parsed JSON object is missing one of the
required top-level keys, every normalizer variant (defensive rich,
simple-schema, and strict) fails with a missing-field condition; safe
defaults are substituted only for nested fields, never for a missing
required top-level key. -/
theorem claim1_amended_thm :
    (∀ (fs : List (String × JVal)) (k : String), k ∈ richRequired →
      (fs.any fun f => f.1 = k) = false →
      ∃ k', k' ∈ richRequired ∧
        normalizeRich (JVal.obj fs) = Except.error ("Missing required field: " ++ k'))
  ∧ (∀ (fs : List (String × JVal)) (k : String), k ∈ simpleRequired →
      (fs.any fun f => f.1 = k) = false →
      ∃ k', k' ∈ simpleRequired ∧
        normalizeSimple (JVal.obj fs) = Except.error ("Missing required field: " ++ k'))
  ∧ (∀ (fs : List (String × JVal)) (k : String), k ∈ richRequired →
      (fs.any fun f => f.1 = k) = false →
      ∃ k', k' ∈ richRequired ∧
        normalizeStrict (JVal.obj fs) = Except.error ("Missing required field: " ++ k')) := by
  refine ⟨fun fs k hk hm => ?_, fun fs k hk hm => ?_, fun fs k hk hm => ?_⟩
  · obtain ⟨k', hk', hcr⟩ := checkRequired_obj_missing richRequired fs k hk hm
    exact ⟨k', hk', normalizeRich_error_of_check _ _ hcr⟩
  · obtain ⟨k', hk', hcr⟩ := checkRequired_obj_missing simpleRequired fs k hk hm
    exact ⟨k', hk', normalizeSimple_error_of_check _ _ hcr⟩
  · obtain ⟨k', hk', hcr⟩ := checkRequired_obj_missing richRequired fs k hk hm
    exact ⟨k', hk', normalizeStrict_error_of_check _ _ hcr⟩

/-- Witness for the amended C1 at a concrete object lacking `meta`. -/
theorem claim1_amended_witness :
    ∃ k', k' ∈ richRequired ∧
      normalizeRich (JVal.obj [("understanding", JVal.obj []), ("roadmap", JVal.obj [])]) =
        Except.error ("Missing required field: " ++ k') :=
  claim1_amended_thm.1 [("understanding", JVal.obj []), ("roadmap", JVal.obj [])] "meta"
    (by decide) (by decide)

/-- C2: for every raw reply text and every JSON parse outcome on which the
defensive rich-schema normalizer returns without throwing, the returned
document syntactically satisfies the full schema: meta, understanding,
roadmap.phases and roadmap.resources present, every skill level in
beginner/intermediate/advanced, every resource type in
youtube/documentation/course, every community platform in
discord/reddit/forum, meta.confidence a number within 0..100,
understanding.hoursPerWeek a number at least 0, and every list-valued
field a list. -/
theorem claim2_thm (jp : List Char → Option JVal) (raw : List Char) (d : JVal)
    (h : parseResponseRich jp raw = Except.ok d) : schemaComplete d = true := by
  unfold parseResponseRich at h
  cases he : extractJson (stripRich raw) with
  | none => simp only [he] at h; cases h
  | some js =>
    simp only [he] at h
    cases hj : jp js with
    | none => simp only [hj] at h; cases h
    | some parsed =>
      simp only [hj] at h
      exact normalizeRich_schemaComplete parsed d h

/-- Witness for C2 on a concrete minimal reply. -/
theorem claim2_witness : schemaComplete defaultRichDoc = true :=
  claim2_thm (fun _ => some minimalRichParsed) [lbrace, rbrace] defaultRichDoc (by rfl)

/-- C3 counterexample: in the simple-schema route-handler variant, a
request body that fails to parse as JSON is caught by the single generic
handler and terminates with status 500, not 400. -/
theorem claim3_counterexample :
    (POSTsimple (fun _ => none) (fun _ => Except.error "")
      (Except.error "Unexpected token")).status = 500 ∧
    (POSTsimple (fun _ => none) (fun _ => Except.error "")
      (Except.error "Unexpected token")).status ≠ 400 :=
  ⟨rfl, by decide⟩

/-- C3 (amended): a request body that is not parseable as JSON terminates
with status 400 only in the defensive variant of the handler; in the
simple-schema and strict variants the thrown parse error falls to the
generic catch and terminates with status 500. -/
theorem claim3_amended_thm (jp : List Char → Option JVal)
    (gemini : List Char → Except String (List Char)) (m : String) :
    (POSTrich jp gemini (Except.error m)).status = 400 ∧
    (POSTsimple jp gemini (Except.error m)).status = 500 ∧
    (POSTstrict jp gemini (Except.error m)).status = 500 :=
  ⟨rfl, rfl, rfl⟩

/-- C4: validateNarrative returns valid=true if and only if the value is a
string whose trimmed length is between 10 and 5000 inclusive, and whenever
it returns valid=false it also returns a non-null error string. -/
theorem claim4_thm (v : JVal) :
    ((validateNarrative v).valid = true ↔
      ∃ s : String, v = JVal.str s ∧ 10 ≤ (trimChars s.data).length ∧
        (trimChars s.data).length ≤ 5000)
  ∧ ((validateNarrative v).valid = false → (validateNarrative v).error.isSome = true) := by
  refine ⟨?_, validateNarrative_error_of_not_valid v⟩
  cases v with
  | str s =>
    rw [validateNarrative_str_valid]
    constructor
    · intro h
      simp at h
      exact ⟨s, rfl, h.1, h.2⟩
    · rintro ⟨s', hs', h1, h2⟩
      cases hs'
      simp [h1, h2]
  | undef => simp [validateNarrative, truthy]
  | jnull => simp [validateNarrative, truthy]
  | bool b => unfold validateNarrative; split_ifs <;> simp
  | num q => unfold validateNarrative; split_ifs <;> simp
  | arr xs => unfold validateNarrative; split_ifs <;> simp
  | obj fs => unfold validateNarrative; split_ifs <;> simp

/-- Witness for C4 at two concrete narrative values. -/
theorem claim4_witness :
    (validateNarrative (JVal.str "short")).error.isSome = true ∧
    (validateNarrative (JVal.str "a long enough narrative")).valid = true :=
  ⟨(claim4_thm (JVal.str "short")).2 (by decide),
   (claim4_thm (JVal.str "a long enough narrative")).1.mpr
     ⟨"a long enough narrative", rfl, by decide, by decide⟩⟩

/-- C5: the extraction regex selects exactly the substring spanning from
the first opening brace to the last closing brace of the fence-stripped
text, and yields no match (the normalizer throws its no-JSON-found error)
exactly when no opening brace is followed later by a closing brace. -/
theorem claim5_thm (s : List Char) :
    (∀ a b c, s = a ++ lbrace :: b ++ rbrace :: c → lbrace ∉ a → rbrace ∉ c →
        extractJson s = some (lbrace :: b ++ [rbrace]))
  ∧ (extractJson s = none ↔ ∀ a b c, s ≠ a ++ lbrace :: b ++ rbrace :: c) := by
  refine ⟨fun a b c heq ha hc => ?_, extractJson_eq_none s⟩
  rw [heq]
  exact extractJson_complete a b c ha hc

/-- Witness for C5 at a concrete text. -/
theorem claim5_witness :
    extractJson (['x'] ++ lbrace :: ['a'] ++ rbrace :: ['y']) =
      some (lbrace :: ['a'] ++ [rbrace]) :=
  (claim5_thm _).1 ['x'] ['a'] ['y'] rfl (by decide) (by decide)

/-- C6: for every reply text from which the normalizer successfully
extracts a JSON object, wrapping the text in markdown code fences (with or
without a json tag, with surrounding whitespace) and running the normalizer
yields the same result as running it on the unwrapped text, in both the
defensive and the strict variants. -/
theorem claim6_thm (jp : List Char → Option JVal) (tag : Bool)
    (ws1 ws2 ws3 ws4 t r : List Char)
    (h1 : ws1.all isWs = true) (h2 : ws2.all isWs = true)
    (h3 : ws3.all isWs = true) (h4 : ws4.all isWs = true)
    (_hr : extractJson (stripRich t) = some r) :
    parseResponseRich jp (wrapFence tag ws1 ws2 ws3 ws4 t) = parseResponseRich jp t ∧
    parseResponseStrict jp (wrapFence tag ws1 ws2 ws3 ws4 t) = parseResponseStrict jp t := by
  have m1 : ∀ c ∈ ws1, isWs c = true := fun c hc => List.all_eq_true.mp h1 c hc
  have m2 : ∀ c ∈ ws2, isWs c = true := fun c hc => List.all_eq_true.mp h2 c hc
  have m3 : ∀ c ∈ ws3, isWs c = true := fun c hc => List.all_eq_true.mp h3 c hc
  have m4 : ∀ c ∈ ws4, isWs c = true := fun c hc => List.all_eq_true.mp h4 c hc
  exact ⟨parseResponseRich_ext jp (extract_through_wrap_rich tag ws1 ws2 ws3 ws4 t m1 m2 m3 m4),
    parseResponseStrict_ext jp (extract_through_wrap_strict tag ws1 ws2 ws3 ws4 t m1 m2 m3 m4)⟩

/-- Witness for C6 at a concrete fenced reply. -/
theorem claim6_witness :
    parseResponseRich (fun _ => some minimalRichParsed)
        (wrapFence true [] ['\n'] ['\n'] [] [lbrace, rbrace]) =
      parseResponseRich (fun _ => some minimalRichParsed) [lbrace, rbrace] ∧
    parseResponseStrict (fun _ => some minimalRichParsed)
        (wrapFence true [] ['\n'] ['\n'] [] [lbrace, rbrace]) =
      parseResponseStrict (fun _ => some minimalRichParsed) [lbrace, rbrace] :=
  claim6_thm (fun _ => some minimalRichParsed) true [] ['\n'] ['\n'] [] [lbrace, rbrace]
    [lbrace, rbrace] rfl (by decide) (by decide) rfl (by rfl)

/-- C7: whenever the parsed reply has roadmap.phases equal to a list of n
elements and the defensive normalizer returns a document, the output phase
list has length n and its ids are exactly phase-1 through phase-n in input
order, regardless of any id values the source supplied. -/
theorem claim7_thm (v d : JVal) (ps : List JVal)
    (h : normalizeRich v = Except.ok d)
    (hp : optGet (jget v "roadmap") "phases" = JVal.arr ps) :
    ∃ outs : List JVal, jget (jget d "roadmap") "phases" = JVal.arr outs ∧
      outs.length = ps.length ∧
      outs.map (fun p => jget p "id") =
        (List.range' 1 ps.length).map (fun i => JVal.str ("phase-" ++ toString i)) :=
  normalizeRich_phase_ids v d ps h hp

/-- Witness for C7 at a concrete reply with duplicate phase ids. -/
theorem claim7_witness :
    ∃ outs : List JVal, jget (jget dupIdsDoc "roadmap") "phases" = JVal.arr outs ∧
      outs.length = 2 ∧
      outs.map (fun p => jget p "id") =
        (List.range' 1 2).map (fun i => JVal.str ("phase-" ++ toString i)) :=
  claim7_thm dupIdsParsed dupIdsDoc
    [JVal.obj [("id", JVal.str "x")], JVal.obj [("id", JVal.str "x")]] (by rfl) (by rfl)

/-- C8: for every skill entry mapped by the defensive normalizer, a level
value in the allowed set is kept unchanged and any other (or absent) level
value is replaced by beginner. -/
theorem claim8_thm (sks outs : List JVal) (h : normSkills sks = Except.ok outs) :
    List.Forall₂ (fun sk out =>
      (isLevel (jget sk "level") = true → jget out "level" = jget sk "level") ∧
      (isLevel (jget sk "level") = false → jget out "level" = JVal.str "beginner"))
      sks outs :=
  normSkills_levels sks outs h

/-- Witness for C8 at concrete skill entries with an expert, an allowed,
and an absent level. -/
theorem claim8_witness :
    List.Forall₂ (fun sk out =>
      (isLevel (jget sk "level") = true → jget out "level" = jget sk "level") ∧
      (isLevel (jget sk "level") = false → jget out "level" = JVal.str "beginner"))
      [JVal.obj [("level", JVal.str "expert")], JVal.obj [("level", JVal.str "advanced")],
        JVal.obj []]
      [JVal.obj [("name", JVal.str "Unnamed skill"), ("level", JVal.str "beginner")],
       JVal.obj [("name", JVal.str "Unnamed skill"), ("level", JVal.str "advanced")],
       JVal.obj [("name", JVal.str "Unnamed skill"), ("level", JVal.str "beginner")]] :=
  claim8_thm _ _ (by rfl)

/-- C9: there is a reply whose parsed JSON has all required top-level keys
and a list-valued roadmap.phases, but whose phases contain a null element,
on which the defensive normalizer throws a property-access TypeError
instead of substituting a default phase, so the request terminates with
status 500 and error code AI_ERROR rather than a schema-complete
document. -/
theorem claim9_thm :
    normalizeRich nullPhaseParsed =
      Except.error "TypeError: cannot read properties of null" ∧
    (POSTrich (fun _ => some nullPhaseParsed) (fun _ => Except.ok [lbrace, rbrace])
      (Except.ok (JVal.obj
        [("narrative", JVal.str "a twelve char narrative")]))).status = 500 ∧
    (POSTrich (fun _ => some nullPhaseParsed) (fun _ => Except.ok [lbrace, rbrace])
      (Except.ok (JVal.obj
        [("narrative", JVal.str "a twelve char narrative")]))).errCode = some "AI_ERROR" :=
  ⟨rfl, rfl, rfl⟩

/-- C10: validateNarrative measures only the trimmed length, so every
string whose trimmed length lies within 10..5000 is accepted even when its
raw length exceeds 5000; and the defensive handler then forwards the
original untrimmed narrative to the prompt builder, which embeds it
verbatim. -/
theorem claim10_thm (jp : List Char → Option JVal)
    (gemini : List Char → Except String (List Char)) (s : String)
    (h1 : 10 ≤ (trimChars s.data).length) (h2 : (trimChars s.data).length ≤ 5000) :
    (validateNarrative (JVal.str s)).valid = true ∧
    POSTrich jp gemini (Except.ok (JVal.obj [("narrative", JVal.str s)])) =
      forgeCoreRich jp gemini (JVal.str s) ∧
    buildPromptRich (JVal.str s) = promptPreRich.data ++ s.data ++ promptPostRich.data := by
  have hv : (validateNarrative (JVal.str s)).valid = true := by
    rw [validateNarrative_str_valid]
    simp [h1, h2]
  exact ⟨hv, POSTrich_forwards jp gemini s hv, rfl⟩

/-- Witness for C10 at a narrative of raw length 5001 and trimmed
length 10. -/
theorem claim10_witness :
    longNarrative.data.length = 5001 ∧
    ((validateNarrative (JVal.str longNarrative)).valid = true ∧
     POSTrich (fun _ => none) (fun _ => Except.error "down")
        (Except.ok (JVal.obj [("narrative", JVal.str longNarrative)])) =
       forgeCoreRich (fun _ => none) (fun _ => Except.error "down")
         (JVal.str longNarrative) ∧
     buildPromptRich (JVal.str longNarrative) =
       promptPreRich.data ++ longNarrative.data ++ promptPostRich.data) := by
  refine ⟨?_, claim10_thm (fun _ => none) (fun _ => Except.error "down") longNarrative
    (by rw [trimChars_longNarrative]; decide) (by rw [trimChars_longNarrative]; decide)⟩
  show (List.replicate 10 'a' ++ List.replicate 4991 ' ').length = 5001
  rw [List.length_append, List.length_replicate, List.length_replicate]
